import Mathlib

/-!
# Social Coordination Core: verification of the party, presence and friend services

Shallow embedding of `Beta/backend/party_service.py`, `Beta/backend/presence_service.py`
and `Beta/backend/friends_service.py`.

Modelling conventions:
* Python dicts become association lists `List (String × α)` with first-match lookup;
  insertion keeps the position of an existing key and appends a new key at the end,
  which matches CPython's insertion-ordered dict semantics.
* Python sets become `List String` with add-if-absent and discard-all.
* Timestamps (`datetime.utcnow().isoformat()`) become `Nat`; the iso parsing and
  timezone normalisation in the source is the identity in this model, and the
  comparison `utcnow() > expires_at` becomes `now > expires_at`.
* Generated tokens (`secrets.token_hex`) are passed in as explicit arguments.
* Handler results: a Python handler returns either a payload dict, or a 2-tuple
  of an error dict and an HTTP status code.  Both are modelled by `Res`.
* WebSocket notifications and the cross-service hooks that only touch another
  service's state are outside each service's own state and are not modelled.
-/

namespace Fear

/-- Result of a service operation: the payload dict on success, or the
`(error dict, HTTP status)` pair the Python code returns on failure. -/
inductive Res (α : Type) where
  | ok (payload : α)
  | err (msg : String) (code : Nat)
deriving Repr, DecidableEq

/-- First-match lookup in an association list (Python `d[k]` / `d.get(k)`). -/
def dictLookup {α : Type} (m : List (String × α)) (k : String) : Option α :=
  match m with
  | [] => none
  | (k', v) :: rest => if k' = k then some v else dictLookup rest k

/-- Python `d[k] = v`: replace the first binding of `k` in place, else append. -/
def dictInsert {α : Type} (m : List (String × α)) (k : String) (v : α) : List (String × α) :=
  match m with
  | [] => [(k, v)]
  | (k', v') :: rest => if k' = k then (k, v) :: rest else (k', v') :: dictInsert rest k v

/-- Python `del d[k]`: drop every binding of `k` (dict keys are unique, so this
coincides with deleting the single binding). -/
def dictErase {α : Type} (m : List (String × α)) (k : String) : List (String × α) :=
  match m with
  | [] => []
  | (k', v) :: rest => if k' = k then dictErase rest k else (k', v) :: dictErase rest k

/-- Python `s.add(x)` on a set modelled as a list. -/
def setAdd (l : List String) (x : String) : List String :=
  if x ∈ l then l else l ++ [x]

/-- Python `s.discard(x)` on a set modelled as a list. -/
def setDiscard (l : List String) (x : String) : List String :=
  match l with
  | [] => []
  | y :: rest => if y = x then setDiscard rest x else y :: setDiscard rest x

/-- Python `str.upper()` (the source only uppercases ASCII response words). -/
def strUpper (s : String) : String := String.mk (s.data.map Char.toUpper)

/-! ## FriendGraph (`friends_service.py`) -/

/-- A friend request dict as built by `send_friend_request`. -/
structure FriendRequest where
  id : String
  from_account_id : String
  to_account_id : String
  message : String
  status : String
  created_at : Nat
  expires_at : Nat
  responded_at : Option Nat := none
deriving Repr, DecidableEq

/-- In-memory state of `FriendsService`:
`friend_lists`, `blocked_users`, `friend_requests` (recipient index) and
`pending_requests` (id index).  The same request dict is aliased between
`pending_requests` and the recipient's `friend_requests` list; updates that the
source performs in place are applied to both images here. -/
structure FriendsState where
  friend_lists : List (String × List String)
  blocked_users : List (String × List String)
  friend_requests : List (String × List FriendRequest)
  pending_requests : List (String × FriendRequest)
deriving Repr, DecidableEq

def FriendsState.initial : FriendsState := ⟨[], [], [], []⟩

/-- `are_friends`: key present and the other account in its set. -/
def are_friends (s : FriendsState) (a b : String) : Bool :=
  match dictLookup s.friend_lists a with
  | none => false
  | some l => decide (b ∈ l)

/-- `is_blocked account target`: `target` is in `account`'s blocked set. -/
def is_blocked (s : FriendsState) (account target : String) : Bool :=
  match dictLookup s.blocked_users account with
  | none => false
  | some l => decide (target ∈ l)

/-- `_find_existing_request`: first PENDING request `from → to` in
`pending_requests`, in insertion order. -/
def findExistingRequest (pending : List (String × FriendRequest)) (from_id to_id : String) :
    Option FriendRequest :=
  match pending with
  | [] => none
  | (_, r) :: rest =>
    if r.from_account_id = from_id ∧ r.to_account_id = to_id ∧ r.status = "PENDING" then some r
    else findExistingRequest rest from_id to_id

/-- `send_friend_request` (30-day TTL).  `rid` is the generated `token_hex` id. -/
def send_friend_request (s : FriendsState) (from_id to_id msg rid : String) (now : Nat) :
    Res String × FriendsState :=
  if are_friends s from_id to_id then (.err "Users are already friends" 400, s)
  else if is_blocked s to_id from_id then (.err "Cannot send friend request to this user" 403, s)
  else if (findExistingRequest s.pending_requests from_id to_id).isSome then
    (.err "Friend request already sent" 400, s)
  else
    let r : FriendRequest :=
      { id := rid, from_account_id := from_id, to_account_id := to_id, message := msg,
        status := "PENDING", created_at := now, expires_at := now + 30 * 24 * 3600 }
    let fr := dictInsert s.friend_requests to_id ((dictLookup s.friend_requests to_id).getD [] ++ [r])
    (.ok rid, { s with pending_requests := dictInsert s.pending_requests rid r,
                       friend_requests := fr })

/-- `_add_friendship`: ensure both keys exist, then add each account to the
other's set. -/
def addFriendship (fl : List (String × List String)) (a b : String) :
    List (String × List String) :=
  let fl1 := if (dictLookup fl a).isSome then fl else dictInsert fl a []
  let fl2 := if (dictLookup fl1 b).isSome then fl1 else dictInsert fl1 b []
  let fl3 := dictInsert fl2 a (setAdd ((dictLookup fl2 a).getD []) b)
  dictInsert fl3 b (setAdd ((dictLookup fl3 b).getD []) a)

/-- `_remove_friend_request`: delete from the id index and filter the
recipient's list. -/
def removeFriendRequest (s : FriendsState) (rid aid : String) : FriendsState :=
  let pending :=
    if (dictLookup s.pending_requests rid).isSome then dictErase s.pending_requests rid
    else s.pending_requests
  let fr :=
    match dictLookup s.friend_requests aid with
    | none => s.friend_requests
    | some l => dictInsert s.friend_requests aid (l.filter (fun r => decide (r.id ≠ rid)))
  { s with pending_requests := pending, friend_requests := fr }

/-- The body of `respond_to_friend_request` once the request dict is found. -/
def respondChecks (s : FriendsState) (fr : FriendRequest) (rid aid resp : String)
    (now : Nat) : Res String × FriendsState :=
  if fr.to_account_id ≠ aid then (.err "Unauthorized to respond to this request" 403, s)
  else if now > fr.expires_at then (.err "Friend request has expired" 400, s)
  else
    let fr' := { fr with status := strUpper resp, responded_at := some now }
    -- the request dict is shared by pending_requests and the recipient's list,
    -- so the in-place status update is visible through both indices
    let s1 : FriendsState :=
      { s with pending_requests := dictInsert s.pending_requests rid fr',
               friend_requests :=
                 match dictLookup s.friend_requests aid with
                 | none => s.friend_requests
                 | some l => dictInsert s.friend_requests aid
                     (l.map (fun r => if r.id = rid then fr' else r)) }
    let s2 :=
      if strUpper resp = "ACCEPT" then
        { s1 with friend_lists := addFriendship s1.friend_lists fr.from_account_id fr.to_account_id }
      else s1
    (.ok (strUpper resp), removeFriendRequest s2 rid aid)

/-- `respond_to_friend_request`.  On ACCEPT the friendship is materialised via
`_add_friendship`; the presence subscriptions it triggers live in the presence
service's state, not here. -/
def respond_to_friend_request (s : FriendsState) (rid aid resp : String) (now : Nat) :
    Res String × FriendsState :=
  match dictLookup s.pending_requests rid with
  | none => (.err "Friend request not found" 404, s)
  | some fr => respondChecks s fr rid aid resp now

/-- One side of the friend removal: `if k in fl: fl[k].discard(t)`. -/
def discardStep (m : List (String × List String)) (k t : String) :
    List (String × List String) :=
  match dictLookup m k with
  | none => m
  | some l => dictInsert m k (setDiscard l t)

/-- `remove_friend`: guard on `are_friends`, then discard each account from the
other's set (the presence unsubscriptions touch only the presence service). -/
def remove_friend (s : FriendsState) (aid fid : String) : Res String × FriendsState :=
  if ¬ are_friends s aid fid then (.err "Users are not friends" 400, s)
  else
    (.ok "REMOVED",
      { s with friend_lists := discardStep (discardStep s.friend_lists aid fid) fid aid })

/-- `_remove_all_requests_between_users`: collect ids of requests between the
pair (either direction, any status), then remove each via
`_remove_friend_request` keyed by the request's recipient. -/
def removeAllRequestsBetween (s : FriendsState) (a b : String) : FriendsState :=
  let ids := (s.pending_requests.filter (fun e =>
      decide ((e.2.from_account_id = a ∧ e.2.to_account_id = b) ∨
              (e.2.from_account_id = b ∧ e.2.to_account_id = a)))).map (fun e => e.1)
  ids.foldl (fun st rid =>
    match dictLookup st.pending_requests rid with
    | none => st
    | some r => removeFriendRequest st rid r.to_account_id) s

/-- `block_user`: drop any friendship, add to the blocked set, cancel requests
between the pair. -/
def block_user (s : FriendsState) (aid tid : String) : Res String × FriendsState :=
  let s1 := if are_friends s aid tid then (remove_friend s aid tid).2 else s
  let s2 : FriendsState :=
    { s1 with blocked_users :=
        dictInsert s1.blocked_users aid (setAdd ((dictLookup s1.blocked_users aid).getD []) tid) }
  (.ok "BLOCKED", removeAllRequestsBetween s2 aid tid)

/-- `unblock_user`: guard, discard, drop the key when the set empties. -/
def unblock_user (s : FriendsState) (aid tid : String) : Res String × FriendsState :=
  match dictLookup s.blocked_users aid with
  | none => (.err "User is not blocked" 400, s)
  | some l =>
    if tid ∉ l then (.err "User is not blocked" 400, s)
    else
      let l' := setDiscard l tid
      let bl := if l' = [] then dictErase s.blocked_users aid else dictInsert s.blocked_users aid l'
      (.ok "UNBLOCKED", { s with blocked_users := bl })

/-- `cleanup_expired_requests`: remove every pending request with
`now > expires_at` via `_remove_friend_request`. -/
def cleanup_expired_requests (s : FriendsState) (now : Nat) : FriendsState :=
  let expired := (s.pending_requests.filter (fun e => decide (now > e.2.expires_at))).map (fun e => e.1)
  expired.foldl (fun st rid =>
    match dictLookup st.pending_requests rid with
    | none => st
    | some r => removeFriendRequest st rid r.to_account_id) s

/-- One FriendGraph operation, with generated ids and clock readings supplied
as data. -/
inductive FOp where
  | send (from_id to_id msg rid : String) (now : Nat)
  | respond (rid aid resp : String) (now : Nat)
  | remove (aid fid : String)
  | block (aid tid : String)
  | unblock (aid tid : String)
  | sweep (now : Nat)
deriving Repr, DecidableEq

def FriendsState.applyOp (s : FriendsState) : FOp → FriendsState
  | .send f t m r n => (send_friend_request s f t m r n).2
  | .respond r a p n => (respond_to_friend_request s r a p n).2
  | .remove a f => (remove_friend s a f).2
  | .block a t => (block_user s a t).2
  | .unblock a t => (unblock_user s a t).2
  | .sweep n => cleanup_expired_requests s n

/-- States reachable from the empty `FriendsService` by service operations. -/
inductive FReachable : FriendsState → Prop where
  | init : FReachable FriendsState.initial
  | step (s : FriendsState) (op : FOp) : FReachable s → FReachable (s.applyOp op)

/-! ## PresenceDirectory (`presence_service.py`) -/

/-- Values stored into a presence `properties` dict by the source: the Season
7.40 structured blobs and plain strings. -/
inductive PropVal where
  | strVal (s : String)
  | fortBasicInfo (homeBaseRating : Nat) (bIsPlaying : Bool)
  | fortLFG (bInLFG : Bool)
deriving Repr, DecidableEq

/-- A presence dict as stored in `user_presence`. -/
structure PresenceRecord where
  account_id : String
  status : String
  last_online : Nat
  properties : List (String × PropVal)
  activities : List String
  platform : String
  session_id : String
deriving Repr, DecidableEq

/-- The `presence_data` request body handed to `set_presence`: every key is
optional (`presence_data.get(...)`). -/
structure PresenceData where
  status : Option String := none
  properties : Option (List (String × PropVal)) := none
  activities : Option (List String) := none
  platform : Option String := none
  session_id : Option String := none
  activity : Option String := none
  party_id : Option String := none
  playlist : Option String := none
deriving Repr, DecidableEq

/-- In-memory state of `PresenceService`: presence records plus the two mirrored
subscription maps (`presence_subscriptions`: target ↦ subscribers,
`user_subscriptions`: subscriber ↦ targets). -/
structure PresenceState where
  user_presence : List (String × PresenceRecord)
  presence_subscriptions : List (String × List String)
  user_subscriptions : List (String × List String)
deriving Repr, DecidableEq

def PresenceState.initial : PresenceState := ⟨[], [], []⟩

/-- Keys of `self.valid_states`. -/
def validStates : List String := ["online", "away", "dnd", "offline"]

/-- Keys of `self.activity_types`. -/
def activityTypes : List String := ["lobby", "match", "creative", "stw", "party", "matchmaking"]

/-- `set_presence`.  `genSession` is the `token_hex` used when the body carries
no session id.  Broadcasting only emits transport events and changes no state. -/
def set_presence (s : PresenceState) (aid : String) (pd : PresenceData) (now : Nat)
    (genSession : String) : Res PresenceRecord × PresenceState :=
  let status := pd.status.getD "online"
  if status ∉ validStates then (.err ("Invalid status: " ++ status) 400, s)
  else
    let base : PresenceRecord :=
      { account_id := aid, status := status, last_online := now,
        properties := pd.properties.getD [], activities := pd.activities.getD [],
        platform := pd.platform.getD "WIN", session_id := pd.session_id.getD genSession }
    let presence :=
      match pd.activity with
      | none => base
      | some act =>
        if act ∈ activityTypes then
          let props := dictInsert base.properties "FortBasicInfo_j"
            (.fortBasicInfo 1 (status == "online" && act != "lobby"))
          let props := dictInsert props "FortLFG_I" (.fortLFG false)
          let props := dictInsert props "party_id" (.strVal (pd.party_id.getD ""))
          let props := dictInsert props "playlist" (.strVal (pd.playlist.getD "None"))
          { base with properties := props }
        else base
    (.ok presence, { s with user_presence := dictInsert s.user_presence aid presence })

/-- `get_presence`: synthesised offline record when none is stored; never
persists it. -/
def get_presence (s : PresenceState) (aid : String) (now : Nat) : PresenceRecord :=
  match dictLookup s.user_presence aid with
  | some p => p
  | none => { account_id := aid, status := "offline", last_online := now,
              properties := [], activities := [], platform := "WIN", session_id := "" }

/-- `subscribe_to_presence`: add both halves of the directed edge
subscriber → target for each target. -/
def subscribe_to_presence (s : PresenceState) (sub : String) (targets : List String) :
    PresenceState :=
  targets.foldl (fun st t =>
    { st with
      presence_subscriptions :=
        dictInsert st.presence_subscriptions t
          (setAdd ((dictLookup st.presence_subscriptions t).getD []) sub),
      user_subscriptions :=
        dictInsert st.user_subscriptions sub
          (setAdd ((dictLookup st.user_subscriptions sub).getD []) t) }) s

/-- One iteration of the `unsubscribe_from_presence` loop for a single target:
discard the subscriber from the target's subscriber set (dropping the key when
it empties) and the target from the subscriber's target set. -/
def unsubStep (st : PresenceState) (sub t : String) : PresenceState :=
  let ps :=
    match dictLookup st.presence_subscriptions t with
    | none => st.presence_subscriptions
    | some l =>
      let l' := setDiscard l sub
      if l' = [] then dictErase st.presence_subscriptions t
      else dictInsert st.presence_subscriptions t l'
  { st with presence_subscriptions := ps,
            user_subscriptions := discardStep st.user_subscriptions sub t }

/-- The final cleanup of `unsubscribe_from_presence`: drop the subscriber's
key if its target set has become empty. -/
def unsubCleanup (s1 : PresenceState) (sub : String) : PresenceState :=
  match dictLookup s1.user_subscriptions sub with
  | none => s1
  | some l =>
    if l = [] then { s1 with user_subscriptions := dictErase s1.user_subscriptions sub }
    else s1

/-- `unsubscribe_from_presence`; `targets = none` models the Python default
`None`, i.e. unsubscribe from everything the subscriber follows. -/
def unsubscribe_from_presence (s : PresenceState) (sub : String)
    (targets : Option (List String)) : PresenceState :=
  let tids :=
    match targets with
    | none => (dictLookup s.user_subscriptions sub).getD []
    | some l => l
  unsubCleanup (tids.foldl (fun st t => unsubStep st sub t) s) sub

/-- The offline copy built by `handle_user_disconnect`: status forced to
offline, properties and activities cleared, last_online stamped. -/
def offlineReset (p : PresenceRecord) (now : Nat) : PresenceRecord :=
  { p with status := "offline", last_online := now, properties := [], activities := [] }

/-- `handle_user_disconnect`: force the stored record offline (clearing
properties and activities), then drop every subscription whose subscriber is
the disconnecting account. -/
def handle_user_disconnect (s : PresenceState) (aid : String) (now : Nat) : PresenceState :=
  let s1 :=
    match dictLookup s.user_presence aid with
    | none => s
    | some p => { s with user_presence := dictInsert s.user_presence aid (offlineReset p now) }
  unsubscribe_from_presence s1 aid none

/-- Set of direct subscription targets / subscribers read through a map,
`[]` when the key is absent. -/
def getS (m : List (String × List String)) (k : String) : List String :=
  (dictLookup m k).getD []

/-- Finite check that the two subscription maps mirror each other: every edge
recorded on one side is recorded on the other. -/
def mirrorOK (s : PresenceState) : Bool :=
  s.user_subscriptions.all (fun e =>
    e.2.all (fun t => decide (e.1 ∈ getS s.presence_subscriptions t))) &&
  s.presence_subscriptions.all (fun e =>
    e.2.all (fun sub => decide (e.1 ∈ getS s.user_subscriptions sub)))

/-! ## PartyRegistry (`party_service.py`)

The service keeps `active_parties`, the recipient invitation index
`party_invitations`, the `user_parties` account ↦ party map, and persists party
snapshots through `database.save_party` / `get_party` / `delete_party`, modelled
as the key-value map `db_parties`.  The static `meta.schema` blob stored on
every party is constant and carries no state, so it is not modelled. -/

structure PartyConfig where
  privacy : String
  max_size : Nat
  join_confirmation : Bool
  allow_friends_of_friends : Bool
  playlist : String
  custom_key : String
deriving Repr, DecidableEq

/-- `default_config` in `create_party` (`self.max_party_size = 4`). -/
def defaultConfig : PartyConfig :=
  ⟨"PRIVATE", 4, true, false, "playlist_defaultsolo", ""⟩

/-- The caller-supplied `party_config` dict: per-key overrides applied with
`default_config.update(party_config)`. -/
structure PartyConfigPatch where
  privacy : Option String := none
  max_size : Option Nat := none
  join_confirmation : Option Bool := none
  allow_friends_of_friends : Option Bool := none
  playlist : Option String := none
  custom_key : Option String := none
deriving Repr, DecidableEq

def applyPatch (c : PartyConfig) (p : PartyConfigPatch) : PartyConfig :=
  ⟨p.privacy.getD c.privacy, p.max_size.getD c.max_size,
   p.join_confirmation.getD c.join_confirmation,
   p.allow_friends_of_friends.getD c.allow_friends_of_friends,
   p.playlist.getD c.playlist, p.custom_key.getD c.custom_key⟩

structure PartyMember where
  account_id : String
  display_name : String
  role : String
  joined_at : Nat
  ready : Bool
  platform : String
  location : String
deriving Repr, DecidableEq

structure Invitation where
  id : String
  party_id : String
  from_account_id : String
  to_account_id : String
  created_at : Nat
  expires_at : Nat
  status : String
  responded_at : Option Nat := none
deriving Repr, DecidableEq

structure Party where
  id : String
  created_at : Nat
  updated_at : Nat
  config : PartyConfig
  members : List PartyMember
  invitations : List Invitation
deriving Repr, DecidableEq

structure PartyState where
  active_parties : List (String × Party)
  party_invitations : List (String × List Invitation)
  user_parties : List (String × String)
  db_parties : List (String × Party)
deriving Repr, DecidableEq

def PartyState.initial : PartyState := ⟨[], [], [], []⟩

/-- The founder member dict built by `create_party`. -/
def mkCaptain (aid : String) (now : Nat) : PartyMember :=
  ⟨aid, "Player_" ++ aid.take 8, "CAPTAIN", now, false, "WIN", "PreLobby"⟩

/-- The member dict built by `join_party`. -/
def mkMember (aid : String) (now : Nat) (platform : Option String) : PartyMember :=
  ⟨aid, "Player_" ++ aid.take 8, "MEMBER", now, false, platform.getD "WIN", "PreLobby"⟩

/-- The already-in-party guard of `create_party`: it only fires when the
recorded party is still resident in `active_parties`. -/
def alreadyInActiveParty (s : PartyState) (aid : String) : Bool :=
  match dictLookup s.user_parties aid with
  | some cur => (dictLookup s.active_parties cur).isSome
  | none => false

/-- `create_party`.  `pid` is the generated `token_hex(16)` party id. -/
def create_party (s : PartyState) (aid : String) (cfg : Option PartyConfigPatch)
    (pid : String) (now : Nat) : Res Party × PartyState :=
  if alreadyInActiveParty s aid then (.err "User already in party" 400, s)
  else
    let config := match cfg with | none => defaultConfig | some p => applyPatch defaultConfig p
    let party : Party := ⟨pid, now, now, config, [mkCaptain aid now], []⟩
    (.ok party,
      { s with active_parties := dictInsert s.active_parties pid party,
               user_parties := dictInsert s.user_parties aid pid,
               db_parties := dictInsert s.db_parties pid party })

/-- `get_party`: fall back to a single load from the persistence store, caching
the loaded snapshot in `active_parties`. -/
def get_party (s : PartyState) (pid : String) : Res Party × PartyState :=
  match dictLookup s.active_parties pid with
  | some p => (.ok p, s)
  | none =>
    match dictLookup s.db_parties pid with
    | none => (.err "Party not found" 404, s)
    | some p => (.ok p, { s with active_parties := dictInsert s.active_parties pid p })

/-- The cross-party guard of `join_party`: the account is mapped to a
different party that is still resident in `active_parties`. -/
def inAnotherParty (s1 : PartyState) (pid aid : String) : Bool :=
  match dictLookup s1.user_parties aid with
  | some cur => cur != pid && (dictLookup s1.active_parties cur).isSome
  | none => false

/-- The body of `join_party` once the party is resident in `active_parties`:
the membership, size and cross-party guards, then the member append and the
mapping/store updates. -/
def joinChecks (s1 : PartyState) (party : Party) (pid aid : String)
    (platform : Option String) (now : Nat) : Res PartyMember × PartyState :=
  if party.members.any (fun m => m.account_id == aid) then
    (.err "User already in party" 400, s1)
  else if party.members.length ≥ party.config.max_size then
    (.err "Party is full" 400, s1)
  else
    if inAnotherParty s1 pid aid then (.err "User already in another party" 400, s1)
    else
      let mem := mkMember aid now platform
      let party' := { party with members := party.members ++ [mem], updated_at := now }
      (.ok mem,
        { s1 with active_parties := dictInsert s1.active_parties pid party',
                  user_parties := dictInsert s1.user_parties aid pid,
                  db_parties := dictInsert s1.db_parties pid party' })

/-- `join_party`.  The db-load at the top persists in `active_parties` even when
a later check fails, so the checks run on (and error branches return) the
loaded state. -/
def join_party (s : PartyState) (pid aid : String) (platform : Option String) (now : Nat) :
    Res PartyMember × PartyState :=
  match dictLookup s.active_parties pid with
  | some party => joinChecks s party pid aid platform now
  | none =>
    match dictLookup s.db_parties pid with
    | none => (.err "Party not found" 404, s)
    | some party =>
      joinChecks { s with active_parties := dictInsert s.active_parties pid party }
        party pid aid platform now

/-- The member search/pop loop of `leave_party`: remove the first member with
the given account id, returning it together with the remaining list. -/
def popFirst (ms : List PartyMember) (aid : String) :
    Option (PartyMember × List PartyMember) :=
  match ms with
  | [] => none
  | m :: rest =>
    if m.account_id = aid then some (m, rest)
    else
      match popFirst rest aid with
      | none => none
      | some (r, rest') => some (r, m :: rest')

/-- `party['members'][0]['role'] = 'CAPTAIN'`. -/
def promoteHead (ms : List PartyMember) : List PartyMember :=
  match ms with
  | [] => []
  | m :: rest => { m with role := "CAPTAIN" } :: rest

/-- A party with its member list replaced and `updated_at` stamped. -/
def setMembers (p : Party) (ms : List PartyMember) (now : Nat) : Party :=
  { p with members := ms, updated_at := now }

/-- Tail of `leave_party` after the member was popped: drop the account's
party mapping, then either delete the emptied party from memory and store, or
promote the list head if the captain left and save. -/
def leaveUpdate (s : PartyState) (party : Party) (pid aid : String)
    (removed : PartyMember) (rest : List PartyMember) (now : Nat) :
    Res String × PartyState :=
  if rest = [] then
    (.ok "LEFT",
      { s with active_parties := dictErase s.active_parties pid,
               user_parties := dictErase s.user_parties aid,
               db_parties := dictErase s.db_parties pid })
  else
    (.ok "LEFT",
      { s with
        active_parties := dictInsert s.active_parties pid
          (setMembers party (if removed.role = "CAPTAIN" then promoteHead rest else rest) now),
        user_parties := dictErase s.user_parties aid,
        db_parties := dictInsert s.db_parties pid
          (setMembers party (if removed.role = "CAPTAIN" then promoteHead rest else rest) now) })

/-- `leave_party`: pop the member; delete the party (memory and store) when it
empties, otherwise promote the list head if the captain left, and save. -/
def leave_party (s : PartyState) (pid aid : String) (now : Nat) : Res String × PartyState :=
  match dictLookup s.active_parties pid with
  | none => (.err "Party not found" 404, s)
  | some party =>
    match popFirst party.members aid with
    | none => (.err "User not in party" 400, s)
    | some (removed, rest) => leaveUpdate s party pid aid removed rest now

/-- `send_invitation` (TTL `self.invitation_timeout = 300`).  `inv_id` is the
generated `token_hex(8)`.  The invitation dict is appended both to the party
and to the recipient index. -/
def send_invitation (s : PartyState) (pid from_id to_id inv_id : String) (now : Nat) :
    Res Invitation × PartyState :=
  match dictLookup s.active_parties pid with
  | none => (.err "Party not found" 404, s)
  | some party =>
    if ¬ party.members.any (fun m => m.account_id == from_id) then
      (.err "Sender not in party" 403, s)
    else if (dictLookup s.user_parties to_id).isSome then
      (.err "Target user already in a party" 400, s)
    else
      let inv : Invitation := ⟨inv_id, pid, from_id, to_id, now, now + 300, "PENDING", none⟩
      let party' := { party with invitations := party.invitations ++ [inv] }
      let pi := dictInsert s.party_invitations to_id
        ((dictLookup s.party_invitations to_id).getD [] ++ [inv])
      (.ok inv,
        { s with active_parties := dictInsert s.active_parties pid party',
                 party_invitations := pi,
                 db_parties := dictInsert s.db_parties pid party' })

/-- Inner loop of the invitation search in `respond_to_invitation`: first
invitation with matching id addressed to the responder. -/
def findInvInList (invs : List Invitation) (inv_id aid : String) : Option Invitation :=
  match invs with
  | [] => none
  | inv :: rest =>
    if inv.id = inv_id ∧ inv.to_account_id = aid then some inv
    else findInvInList rest inv_id aid

/-- Outer loop of the invitation search: scan `active_parties` in insertion
order. -/
def findInvitation (parties : List (String × Party)) (inv_id aid : String) :
    Option (String × Invitation) :=
  match parties with
  | [] => none
  | (pid, p) :: rest =>
    match findInvInList p.invitations inv_id aid with
    | some inv => some (pid, inv)
    | none => findInvitation rest inv_id aid

/-- In-place mutation of the found invitation dict inside the party's list:
replace the first entry with matching id and recipient. -/
def updateInvStatus (invs : List Invitation) (inv_id aid : String) (inv' : Invitation) :
    List Invitation :=
  match invs with
  | [] => []
  | inv :: rest =>
    if inv.id = inv_id ∧ inv.to_account_id = aid then inv' :: rest
    else inv :: updateInvStatus rest inv_id aid inv'

/-- The payload dict built by `respond_to_invitation`: `party_id` is only added
on the ACCEPT path. -/
structure RespondPayload where
  invitation_id : String
  response : String
  party_id : Option String := none
deriving Repr, DecidableEq

/-- Python's `'error' in join_result`.  `join_party` returns a bare dict on
success (which has no `error` key) and a 2-tuple `(error dict, status code)` on
failure; membership in a tuple compares the string against the tuple's two
elements, a dict and an int, so the test is false in both cases. -/
def resHasErrorKey {α : Type} : Res α → Bool
  | .ok _ => false
  | .err _ _ => false

/-- `return join_result` in the (unreachable) error-forwarding branch.  The
`ok` case of this conversion is never exercised because the branch is only
entered when `resHasErrorKey` holds, which it never does. -/
def forwardJoinError {α β : Type} : Res α → Res β
  | .err m c => .err m c
  | .ok _ => .err "" 0

/-- Final step of `respond_to_invitation`: save the party snapshot
(`self.db.save_party(party_id, self.active_parties[party_id])`) and build the
result.  Python would raise `KeyError` (caught as a 500) if the party vanished
from `active_parties`; the invitation search guarantees it has not. -/
def finishSave (s3 : PartyState) (pid inv_id : String) (pidOpt : Option String)
    (respU : String) : Res RespondPayload × PartyState :=
  match dictLookup s3.active_parties pid with
  | none => (.err "Failed to respond to invitation: KeyError" 500, s3)
  | some p =>
    (.ok ⟨inv_id, respU, pidOpt⟩, { s3 with db_parties := dictInsert s3.db_parties pid p })

/-- Tail of `respond_to_invitation` after the optional join: filter the
responder's recipient index by invitation id, then save and answer. -/
def finishRespond (s : PartyState) (pid inv_id aid : String) (pidOpt : Option String)
    (respU : String) : Res RespondPayload × PartyState :=
  finishSave
    { s with party_invitations :=
        match dictLookup s.party_invitations aid with
        | none => s.party_invitations
        | some l =>
          dictInsert s.party_invitations aid (l.filter (fun i => decide (i.id ≠ inv_id))) }
    pid inv_id pidOpt respU

/-- In-place overwrite of the found invitation dict: set the status to the
uppercased response and stamp `responded_at`. -/
def invUpd (inv : Invitation) (respU : String) (now : Nat) : Invitation :=
  { inv with status := respU, responded_at := some now }

/-- A party with its invitation list replaced (in-place list mutation). -/
def setInvitations (p : Party) (invs : List Invitation) : Party :=
  { p with invitations := invs }

/-- The in-place status-overwrite step of `respond_to_invitation`: the found
invitation dict is mutated, which is visible both in the owning party's list
and (through aliasing) in the recipient index. -/
def markResponded (s : PartyState) (pid inv_id aid : String) (inv' : Invitation) :
    PartyState :=
  { s with
    active_parties :=
      match dictLookup s.active_parties pid with
      | none => s.active_parties
      | some p =>
        dictInsert s.active_parties pid
          (setInvitations p (updateInvStatus p.invitations inv_id aid inv'))
    party_invitations :=
      match dictLookup s.party_invitations aid with
      | none => s.party_invitations
      | some l =>
        dictInsert s.party_invitations aid
          (l.map (fun i => if i.id = inv_id ∧ i.to_account_id = aid then inv' else i)) }

/-- `respond_to_invitation`: locate the invitation, reject after expiry,
overwrite its status in place, chain into `join_party` on ACCEPT (whose failure
the `'error' in join_result` test never detects), then clean the recipient
index and save. -/
def respond_to_invitation (s : PartyState) (inv_id aid resp : String) (now : Nat) :
    Res RespondPayload × PartyState :=
  match findInvitation s.active_parties inv_id aid with
  | none => (.err "Invitation not found" 404, s)
  | some (pid, inv) =>
    if now > inv.expires_at then (.err "Invitation expired" 400, s)
    else
      let s1 := markResponded s pid inv_id aid (invUpd inv (strUpper resp) now)
      if strUpper resp = "ACCEPT" then
        let jr := join_party s1 pid aid none now
        if resHasErrorKey jr.1 then (forwardJoinError jr.1, jr.2)
        else finishRespond jr.2 pid inv_id aid (some pid) (strUpper resp)
      else finishRespond s1 pid inv_id aid none (strUpper resp)

/-- The found/updated loop of `update_member_ready_state`: set the flag on the
first matching member, reporting whether one was found. -/
def setReady (ms : List PartyMember) (aid : String) (r : Bool) :
    List PartyMember × Bool :=
  match ms with
  | [] => ([], false)
  | m :: rest =>
    if m.account_id = aid then ({ m with ready := r } :: rest, true)
    else
      let p := setReady rest aid r
      (m :: p.1, p.2)

/-- `update_member_ready_state`. -/
def update_member_ready_state (s : PartyState) (pid aid : String) (r : Bool) (now : Nat) :
    Res String × PartyState :=
  match dictLookup s.active_parties pid with
  | none => (.err "Party not found" 404, s)
  | some party =>
    let p := setReady party.members aid r
    if ¬ p.2 then (.err "Member not found in party" 404, s)
    else
      let party' := { party with members := p.1, updated_at := now }
      (.ok "UPDATED",
        { s with active_parties := dictInsert s.active_parties pid party',
                 db_parties := dictInsert s.db_parties pid party' })

/-- The per-party pruning step of `cleanup_expired_invitations`. -/
def sweepParty (now : Nat) (p : Party) : Party :=
  { p with invitations := p.invitations.filter (fun inv => decide (now ≤ inv.expires_at)) }

/-- `cleanup_expired_invitations`: prune expired entries from the recipient
index (dropping emptied keys) and from every active party's invitation list.
The pruned parties are not written back to the persistence store. -/
def cleanup_expired_invitations (s : PartyState) (now : Nat) : PartyState :=
  let pi := (s.party_invitations.map (fun e =>
      (e.1, e.2.filter (fun inv => decide (now ≤ inv.expires_at))))).filter
      (fun e => !e.2.isEmpty)
  let ap := s.active_parties.map (fun e =>
      (e.1, { e.2 with invitations := e.2.invitations.filter (fun inv => decide (now ≤ inv.expires_at)) }))
  { s with party_invitations := pi, active_parties := ap }

/-- One PartyRegistry operation, with generated tokens and clock readings
supplied as data. -/
inductive POp where
  | create (aid : String) (cfg : Option PartyConfigPatch) (pid : String) (now : Nat)
  | get (pid : String)
  | join (pid aid : String) (platform : Option String) (now : Nat)
  | leave (pid aid : String) (now : Nat)
  | sendInv (pid from_id to_id inv_id : String) (now : Nat)
  | respond (inv_id aid resp : String) (now : Nat)
  | ready (pid aid : String) (r : Bool) (now : Nat)
  | sweep (now : Nat)
deriving Repr, DecidableEq

def PartyState.applyOp (s : PartyState) : POp → PartyState
  | .create a c p n => (create_party s a c p n).2
  | .get p => (get_party s p).2
  | .join p a pf n => (join_party s p a pf n).2
  | .leave p a n => (leave_party s p a n).2
  | .sendInv p f t i n => (send_invitation s p f t i n).2
  | .respond i a r n => (respond_to_invitation s i a r n).2
  | .ready p a r n => (update_member_ready_state s p a r n).2
  | .sweep n => cleanup_expired_invitations s n

/-- States reachable from the empty `PartyService` by service operations. -/
inductive PReachable : PartyState → Prop where
  | init : PReachable PartyState.initial
  | step (s : PartyState) (op : POp) : PReachable s → PReachable (s.applyOp op)

/-- Account ids of the members of the party stored under `pid` in a party
map. -/
def membersOfMap (m : List (String × Party)) (pid : String) : List String :=
  match dictLookup m pid with
  | none => []
  | some p => p.members.map (fun m => m.account_id)

/-- Account ids of the members of the party stored under `pid`. -/
def membersOf (s : PartyState) (pid : String) : List String :=
  membersOfMap s.active_parties pid

/-- Account ids of the members of the persisted snapshot stored under `pid`. -/
def dbMembersOf (s : PartyState) (pid : String) : List String :=
  membersOfMap s.db_parties pid

/-- Number of members holding the CAPTAIN role. -/
def captainCount (ms : List PartyMember) : Nat :=
  ms.countP (fun m => decide (m.role = "CAPTAIN"))

/-- Number of invitations of the party stored under `pid` that are addressed to
`to_id`. -/
def invCountFor (s : PartyState) (pid to_id : String) : Nat :=
  match dictLookup s.active_parties pid with
  | none => 0
  | some p => (p.invitations.filter (fun i => i.to_account_id == to_id)).length

/-! ## Concrete scenario states

Small traces used to instantiate the theorems below and to exhibit
counterexamples. -/

/-- A pending friend request A → B. -/
def fsReq : FriendsState := (send_friend_request FriendsState.initial "A" "B" "" "r1" 0).2

/-- ... after B sends the reverse request while A's request is still pending. -/
def fsMutual : FriendsState := (send_friend_request fsReq "B" "A" "" "r2" 0).2

/-- A friendship built by request plus ACCEPT, through the operation steps. -/
def fsTrace : FriendsState :=
  FriendsState.applyOp (FriendsState.applyOp FriendsState.initial (.send "A" "B" "" "r1" 0))
    (.respond "r1" "B" "ACCEPT" 1)

/-- Party p1 founded by A (default config). -/
def psBase : PartyState := (create_party PartyState.initial "A" none "p1" 0).2

/-- ... with a pending invitation i1 to B (expires at 300). -/
def psInvited : PartyState := (send_invitation psBase "p1" "A" "B" "i1" 0).2

/-- ... after the expiry sweep ran at time 301. -/
def psSwept : PartyState := cleanup_expired_invitations psInvited 301

/-- Party p1 founded by A with `max_size = 1`, so the chained join of any
invitation acceptance must fail. -/
def psTiny : PartyState :=
  (create_party PartyState.initial "A" (some { max_size := some 1 }) "p1" 0).2

/-- ... with a pending invitation i1 to B. -/
def psTinyInvited : PartyState := (send_invitation psTiny "p1" "A" "B" "i1" 0).2

/-- Two parties and a joined member, built through the operation steps. -/
def psTrace : PartyState :=
  PartyState.applyOp
    (PartyState.applyOp (PartyState.applyOp PartyState.initial (.create "A" none "p1" 0))
      (.create "B" none "p2" 1))
    (.join "p1" "C" none 2)

/-- A two-member party (captain A, member B), built through the operation
steps. -/
def psTwo : PartyState :=
  PartyState.applyOp (PartyState.applyOp PartyState.initial (.create "A" none "p1" 0))
    (.join "p1" "B" none 1)

/-- Reciprocal presence subscriptions between A and B plus a stored presence
record for A. -/
def prSubs : PresenceState :=
  subscribe_to_presence (subscribe_to_presence PresenceState.initial "A" ["B"]) "B" ["A"]

def prState : PresenceState := (set_presence prSubs "A" {} 3 "s1").2

/-- The party value stored under p1 in `psInvited`. -/
def psInvitedParty : Party :=
  ⟨"p1", 0, 0, defaultConfig, [mkCaptain "A" 0],
   [⟨"i1", "p1", "A", "B", 0, 300, "PENDING", none⟩]⟩

/-- The pending invitation of `psInvited`. -/
def psInvitedInv : Invitation := ⟨"i1", "p1", "A", "B", 0, 300, "PENDING", none⟩

/-- The party value stored under p1 in `psTinyInvited`. -/
def psTinyParty : Party :=
  ⟨"p1", 0, 0, { defaultConfig with max_size := 1 }, [mkCaptain "A" 0],
   [⟨"i1", "p1", "A", "B", 0, 300, "PENDING", none⟩]⟩

/-- The party value stored under p1 in `psTwo`. -/
def psTwoParty : Party :=
  ⟨"p1", 0, 1, defaultConfig, [mkCaptain "A" 0, mkMember "B" 1 none], []⟩

/-- Symmetry of a friend-lists map, as a relation on its `getS` sets. -/
def SymFL (fl : List (String × List String)) : Prop :=
  ∀ a b, b ∈ getS fl a ↔ a ∈ getS fl b

/-- Symmetry of the materialised friendship relation: the inductive invariant
behind `are_friends` symmetry. -/
def FriendsSym (s : FriendsState) : Prop := SymFL s.friend_lists

/-- Inductive invariant of the party registry: membership is indexed by
`user_parties` (hence unique system-wide), every resident party is non-empty
with pairwise distinct members and exactly one captain, and the persistence
store carries the same membership as memory. -/
structure PInv (s : PartyState) : Prop where
  uniq : ∀ a pid, a ∈ membersOf s pid → dictLookup s.user_parties a = some pid
  mnonempty : ∀ pid, (dictLookup s.active_parties pid).isSome = true → membersOf s pid ≠ []
  mnodup : ∀ pid, (membersOf s pid).Nodup
  captain : ∀ pid p, dictLookup s.active_parties pid = some p → captainCount p.members = 1
  dbsync : ∀ pid, (dictLookup s.db_parties pid).map Party.members =
    (dictLookup s.active_parties pid).map Party.members

/-! ## Lemmas about the dict and set model -/

theorem dictLookup_insert {α : Type} (m : List (String × α)) (k k' : String) (v : α) :
    dictLookup (dictInsert m k v) k' = if k' = k then some v else dictLookup m k' := by
  induction m with
  | nil =>
    by_cases h : k' = k
    · simp [dictInsert, dictLookup, h]
    · simp only [dictInsert, dictLookup, if_neg h]
      exact if_neg (Ne.symm h)
  | cons e rest ih =>
    obtain ⟨a, b⟩ := e
    by_cases hak : a = k <;> by_cases hk : k' = k <;>
      simp_all [dictInsert, dictLookup, eq_comm]

theorem dictLookup_erase {α : Type} (m : List (String × α)) (k k' : String) :
    dictLookup (dictErase m k) k' = if k' = k then none else dictLookup m k' := by
  induction m with
  | nil => by_cases h : k' = k <;> simp [dictErase, dictLookup, h]
  | cons e rest ih =>
    obtain ⟨a, b⟩ := e
    by_cases hak : a = k <;> by_cases hk : k' = k <;> by_cases hk' : a = k' <;>
      simp_all [dictErase, dictLookup, eq_comm]

theorem dictLookup_mem {α : Type} {m : List (String × α)} {k : String} {v : α}
    (h : dictLookup m k = some v) : (k, v) ∈ m := by
  induction m with
  | nil => simp [dictLookup] at h
  | cons e rest ih =>
    obtain ⟨a, b⟩ := e
    by_cases hak : a = k
    · subst hak
      simp [dictLookup] at h
      simp [h]
    · simp [dictLookup, hak] at h
      simp [ih h]

theorem mem_setAdd {l : List String} {x y : String} :
    x ∈ setAdd l y ↔ x ∈ l ∨ x = y := by
  unfold setAdd
  by_cases h : y ∈ l
  · simp [h]
    intro hxy; subst hxy; exact h
  · simp [h]

theorem mem_setDiscard {l : List String} {x y : String} :
    x ∈ setDiscard l y ↔ x ∈ l ∧ x ≠ y := by
  induction l with
  | nil => simp [setDiscard]
  | cons a rest ih =>
    by_cases h : a = y
    · subst h
      simp [setDiscard, ih]
      tauto
    · simp [setDiscard, h, ih]
      constructor
      · rintro (rfl | hr)
        · exact ⟨Or.inl rfl, h⟩
        · exact ⟨Or.inr hr.1, hr.2⟩
      · rintro ⟨rfl | hr, hne⟩
        · exact Or.inl rfl
        · exact Or.inr ⟨hr, hne⟩

/-! ## C10: `set_presence` with no status key defaults to online -/

/-- C10: for every account and every presence body without a `status` key,
`set_presence` does not fail; it defaults the status to `online` and stores a
record whose status is `online`. -/
theorem set_presence_defaults_to_online (s : PresenceState) (aid : String) (pd : PresenceData)
    (now : Nat) (gs : String) (h : pd.status = none) :
    ∃ p : PresenceRecord,
      (set_presence s aid pd now gs).1 = .ok p ∧
      dictLookup (set_presence s aid pd now gs).2.user_presence aid = some p ∧
      p.status = "online" := by
  unfold set_presence
  have hst : pd.status.getD "online" = "online" := by rw [h]; rfl
  rw [hst]
  have hmem : ("online" : String) ∈ validStates := by simp [validStates]
  simp only [hmem, not_true_eq_false, if_false]
  cases hact : pd.activity with
  | none =>
    refine ⟨_, rfl, ?_, rfl⟩
    simp [dictLookup_insert]
  | some act =>
    by_cases hq : act ∈ activityTypes
    · simp only [hq, if_true]
      refine ⟨_, rfl, ?_, rfl⟩
      simp [dictLookup_insert]
    · simp only [hq, if_false]
      refine ⟨_, rfl, ?_, rfl⟩
      simp [dictLookup_insert]

/-- Witness for C10 at a concrete body with no status key. -/
theorem set_presence_defaults_to_online_witness :
    ({} : PresenceData).status = none ∧
    ∃ p : PresenceRecord,
      (set_presence PresenceState.initial "A" {} 5 "sess").1 = .ok p ∧
      dictLookup (set_presence PresenceState.initial "A" {} 5 "sess").2.user_presence "A" = some p ∧
      p.status = "online" :=
  ⟨rfl, set_presence_defaults_to_online PresenceState.initial "A" {} 5 "sess" rfl⟩

/-! ## C2: mutual friend requests are not auto-accepted -/

/-- C2 counterexample: with A's request to B still PENDING, B's reverse request
is simply created: the result is a fresh SENT request, the accounts are not
friends, and PENDING requests exist in both directions. -/
theorem c2_counterexample :
    (send_friend_request fsReq "B" "A" "" "r2" 0).1 = .ok "r2" ∧
    are_friends fsMutual "A" "B" = false ∧
    (findExistingRequest fsMutual.pending_requests "A" "B").isSome = true ∧
    (findExistingRequest fsMutual.pending_requests "B" "A").isSome = true := by
  refine ⟨?_, ?_, ?_, ?_⟩ <;> decide

theorem findExistingRequest_append_some {m : List (String × FriendRequest)}
    {l : List (String × FriendRequest)} {f t : String} {x : FriendRequest}
    (h : findExistingRequest m f t = some x) :
    findExistingRequest (m ++ l) f t = some x := by
  induction m with
  | nil => simp [findExistingRequest] at h
  | cons e rest ih =>
    obtain ⟨k, r⟩ := e
    by_cases hr : r.from_account_id = f ∧ r.to_account_id = t ∧ r.status = "PENDING" <;>
      simp_all [findExistingRequest]

theorem findExistingRequest_append_none {m : List (String × FriendRequest)}
    {l : List (String × FriendRequest)} {f t : String}
    (h : findExistingRequest m f t = none) :
    findExistingRequest (m ++ l) f t = findExistingRequest l f t := by
  induction m with
  | nil => simp
  | cons e rest ih =>
    obtain ⟨k, r⟩ := e
    by_cases hr : r.from_account_id = f ∧ r.to_account_id = t ∧ r.status = "PENDING" <;>
      simp_all [findExistingRequest]

theorem dictInsert_of_lookup_none {α : Type} {m : List (String × α)} {k : String} (v : α)
    (h : dictLookup m k = none) : dictInsert m k v = m ++ [(k, v)] := by
  induction m with
  | nil => rfl
  | cons e rest ih =>
    obtain ⟨a, b⟩ := e
    by_cases hak : a = k <;> simp_all [dictLookup, dictInsert]

/-- C2 amended: a request sent while the recipient has a PENDING reverse
request outstanding is not treated as an accept: the reverse request is
created as a second independent PENDING request, the accounts do not become
friends, and PENDING requests remain in both directions. -/
theorem mutual_requests_not_auto_accepted (s : FriendsState) (A B msg rid : String) (now : Nat)
    (hpend : (findExistingRequest s.pending_requests A B).isSome = true)
    (hf1 : are_friends s B A = false) (hf2 : are_friends s A B = false)
    (hb : is_blocked s A B = false)
    (hrev : findExistingRequest s.pending_requests B A = none)
    (hfresh : dictLookup s.pending_requests rid = none) :
    (send_friend_request s B A msg rid now).1 = .ok rid ∧
    are_friends (send_friend_request s B A msg rid now).2 A B = false ∧
    (findExistingRequest (send_friend_request s B A msg rid now).2.pending_requests A B).isSome
      = true ∧
    (findExistingRequest (send_friend_request s B A msg rid now).2.pending_requests B A).isSome
      = true := by
  unfold send_friend_request
  simp only [hf1, hb, hrev, Option.isSome_none, Bool.false_eq_true, if_false]
  rw [dictInsert_of_lookup_none _ hfresh]
  refine ⟨trivial, hf2, ?_, ?_⟩
  · obtain ⟨x, hx⟩ := Option.isSome_iff_exists.mp hpend
    rw [findExistingRequest_append_some hx]
    rfl
  · rw [findExistingRequest_append_none hrev]
    simp [findExistingRequest]

/-- Witness for C2 amended at the mutual-request scenario state. -/
theorem mutual_requests_not_auto_accepted_witness :
    ((findExistingRequest fsReq.pending_requests "A" "B").isSome = true ∧
     findExistingRequest fsReq.pending_requests "B" "A" = none) ∧
    are_friends (send_friend_request fsReq "B" "A" "" "r2" 0).2 "A" "B" = false ∧
    (findExistingRequest (send_friend_request fsReq "B" "A" "" "r2" 0).2.pending_requests
      "B" "A").isSome = true :=
  ⟨⟨by decide, by decide⟩,
   (mutual_requests_not_auto_accepted fsReq "A" "B" "" "r2" 0 (by decide) (by decide)
      (by decide) (by decide) (by decide) (by decide)).2.1,
   (mutual_requests_not_auto_accepted fsReq "A" "B" "" "r2" 0 (by decide) (by decide)
      (by decide) (by decide) (by decide) (by decide)).2.2.2⟩

/-! ## C3: duplicate party invitations are not deduplicated -/

/-- C3 counterexample: a second `send_invitation` to the same `(party, to)`
pair creates a second invitation instead of returning the existing one: the
stored count for the pair becomes two. -/
theorem c3_counterexample :
    (send_invitation psInvited "p1" "A" "B" "i2" 0).1 =
      .ok ⟨"i2", "p1", "A", "B", 0, 300, "PENDING", none⟩ ∧
    invCountFor (send_invitation psInvited "p1" "A" "B" "i2" 0).2 "p1" "B" = 2 := by
  refine ⟨?_, ?_⟩ <;> decide

/-- C3 amended: `send_invitation` performs no duplicate check: whenever the
party exists, the sender is a member and the target is not recorded in any
party, it appends a fresh PENDING invitation, growing the stored count for the
`(party, recipient)` pair by one. -/
theorem send_invitation_appends_duplicate (s : PartyState) (pid from_id to_id inv_id : String)
    (now : Nat) (p : Party)
    (hp : dictLookup s.active_parties pid = some p)
    (hm : p.members.any (fun m => m.account_id == from_id) = true)
    (ht : dictLookup s.user_parties to_id = none) :
    (send_invitation s pid from_id to_id inv_id now).1 =
      .ok ⟨inv_id, pid, from_id, to_id, now, now + 300, "PENDING", none⟩ ∧
    invCountFor (send_invitation s pid from_id to_id inv_id now).2 pid to_id =
      invCountFor s pid to_id + 1 := by
  unfold send_invitation
  rw [hp]
  simp only [hm, not_true_eq_false, if_false, ht, Option.isSome_none, Bool.false_eq_true]
  constructor
  · trivial
  · unfold invCountFor
    rw [hp, dictLookup_insert]
    simp [List.filter_append]

/-- Witness for C3 amended at the duplicate-invitation scenario state. -/
theorem send_invitation_appends_duplicate_witness :
    dictLookup psInvited.active_parties "p1" = some psInvitedParty ∧
    invCountFor (send_invitation psInvited "p1" "A" "B" "i2" 0).2 "p1" "B" =
      invCountFor psInvited "p1" "B" + 1 :=
  ⟨by decide,
   (send_invitation_appends_duplicate psInvited "p1" "A" "B" "i2" 0 psInvitedParty
      (by decide) (by decide) (by decide)).2⟩

/-! ## C6: responding to an expired invitation -/

/-- C6 counterexample: once the expiry sweep has removed invitation i1, the
ACCEPT response fails with `Invitation not found` rather than the Expired
error the claim requires regardless of the sweep. -/
theorem c6_counterexample :
    respond_to_invitation psSwept "i1" "B" "ACCEPT" 301 =
      (.err "Invitation not found" 404, psSwept) ∧
    (respond_to_invitation psSwept "i1" "B" "ACCEPT" 301).1 ≠
      .err "Invitation expired" 400 := by
  refine ⟨?_, ?_⟩ <;> decide

/-- C6 amended: responding after `expires_at` always fails without touching any
state (in particular membership is unchanged), but the error depends on the
sweep: while the invitation is still indexed the response fails with the
Expired error; after the sweep has removed it, the same response fails with
NotFound. -/
theorem respond_after_expiry_behavior (s : PartyState) (inv_id aid resp : String) (now : Nat) :
    (∀ pid inv, findInvitation s.active_parties inv_id aid = some (pid, inv) →
        now > inv.expires_at →
        respond_to_invitation s inv_id aid resp now = (.err "Invitation expired" 400, s)) ∧
    (findInvitation s.active_parties inv_id aid = none →
        respond_to_invitation s inv_id aid resp now = (.err "Invitation not found" 404, s)) := by
  constructor
  · intro pid inv hf he
    unfold respond_to_invitation
    rw [hf]
    simp [he]
  · intro hf
    unfold respond_to_invitation
    rw [hf]

/-- Witness for C6 amended: before the sweep the response fails Expired, after
the sweep it fails NotFound; the state (hence membership) is untouched in
both runs. -/
theorem respond_after_expiry_behavior_witness :
    (findInvitation psInvited.active_parties "i1" "B" = some ("p1", psInvitedInv) ∧
     respond_to_invitation psInvited "i1" "B" "ACCEPT" 301 =
       (.err "Invitation expired" 400, psInvited)) ∧
    (findInvitation psSwept.active_parties "i1" "B" = none ∧
     respond_to_invitation psSwept "i1" "B" "ACCEPT" 301 =
       (.err "Invitation not found" 404, psSwept)) :=
  ⟨⟨by decide,
    (respond_after_expiry_behavior psInvited "i1" "B" "ACCEPT" 301).1 "p1" psInvitedInv
      (by decide) (by decide)⟩,
   ⟨by decide,
    (respond_after_expiry_behavior psSwept "i1" "B" "ACCEPT" 301).2 (by decide)⟩⟩

/-! ## Support lemmas about `respond_to_invitation` and `join_party` -/

theorem resHasErrorKey_false {α : Type} (r : Res α) : resHasErrorKey r = false := by
  cases r <;> rfl

theorem findInvInList_props {invs : List Invitation} {i a : String} {inv : Invitation}
    (h : findInvInList invs i a = some inv) :
    inv.id = i ∧ inv.to_account_id = a ∧ inv ∈ invs := by
  induction invs with
  | nil => simp [findInvInList] at h
  | cons x rest ih =>
    by_cases hx : x.id = i ∧ x.to_account_id = a
    · simp only [findInvInList, if_pos hx] at h
      injection h with h
      subst h
      exact ⟨hx.1, hx.2, List.mem_cons_self _ _⟩
    · simp only [findInvInList, if_neg hx] at h
      obtain ⟨h1, h2, h3⟩ := ih h
      exact ⟨h1, h2, List.mem_cons_of_mem _ h3⟩

theorem mem_updateInvStatus {invs : List Invitation} {i a : String} {inv : Invitation}
    (inv' : Invitation) (h : findInvInList invs i a = some inv) :
    inv' ∈ updateInvStatus invs i a inv' := by
  induction invs with
  | nil => simp [findInvInList] at h
  | cons x rest ih =>
    by_cases hx : x.id = i ∧ x.to_account_id = a
    · simp only [updateInvStatus, if_pos hx]
      exact List.mem_cons_self _ _
    · simp only [findInvInList, if_neg hx] at h
      simp only [updateInvStatus, if_neg hx]
      exact List.mem_cons_of_mem _ (ih h)

theorem dictLookup_some_mem_keys {α : Type} {m : List (String × α)} {k : String} {v : α}
    (h : dictLookup m k = some v) : k ∈ m.map Prod.fst :=
  List.mem_map_of_mem Prod.fst (dictLookup_mem h)

theorem findInvitation_lookup {parties : List (String × Party)} {i a pid : String}
    {inv : Invitation} (hkeys : (parties.map Prod.fst).Nodup)
    (h : findInvitation parties i a = some (pid, inv)) :
    ∃ p, dictLookup parties pid = some p ∧ findInvInList p.invitations i a = some inv := by
  induction parties with
  | nil => simp [findInvitation] at h
  | cons e rest ih =>
    obtain ⟨k, p⟩ := e
    cases hfi : findInvInList p.invitations i a with
    | some inv0 =>
      simp only [findInvitation, hfi] at h
      injection h with h
      obtain ⟨rfl, rfl⟩ := Prod.mk.injEq _ _ _ _ |>.mp h
      exact ⟨p, by simp [dictLookup], hfi⟩
    | none =>
      simp only [findInvitation, hfi] at h
      simp only [List.map_cons, List.nodup_cons] at hkeys
      obtain ⟨p', hl, hfind⟩ := ih hkeys.2 h
      refine ⟨p', ?_, hfind⟩
      have hk : k ≠ pid := fun hkp => hkeys.1 (hkp ▸ dictLookup_some_mem_keys hl)
      simp only [dictLookup, if_neg hk]
      exact hl

theorem joinChecks_pi (s1 : PartyState) (party : Party) (pid aid : String)
    (pf : Option String) (now : Nat) :
    (joinChecks s1 party pid aid pf now).2.party_invitations = s1.party_invitations := by
  unfold joinChecks
  split
  · rfl
  · split
    · rfl
    · split
      · rfl
      · rfl

theorem joinChecks_invitations (s1 : PartyState) (party : Party) (pid aid : String)
    (pf : Option String) (now : Nat)
    (hp : dictLookup s1.active_parties pid = some party) :
    ∃ q', dictLookup (joinChecks s1 party pid aid pf now).2.active_parties pid = some q' ∧
      q'.invitations = party.invitations ∧
      (q'.members = party.members ∨ q'.members = party.members ++ [mkMember aid now pf]) := by
  unfold joinChecks
  split
  · exact ⟨party, hp, rfl, Or.inl rfl⟩
  · split
    · exact ⟨party, hp, rfl, Or.inl rfl⟩
    · split
      · exact ⟨party, hp, rfl, Or.inl rfl⟩
      · refine ⟨{ party with members := party.members ++ [mkMember aid now pf], updated_at := now }, ?_, rfl, Or.inr rfl⟩
        rw [dictLookup_insert]
        simp

theorem join_party_invitations (s : PartyState) (pid aid : String) (pf : Option String)
    (now : Nat) (q : Party) (hp : dictLookup s.active_parties pid = some q) :
    ∃ q', dictLookup (join_party s pid aid pf now).2.active_parties pid = some q' ∧
      q'.invitations = q.invitations ∧
      (q'.members = q.members ∨ q'.members = q.members ++ [mkMember aid now pf]) := by
  unfold join_party
  rw [hp]
  exact joinChecks_invitations s q pid aid pf now hp

theorem join_party_full (s : PartyState) (pid aid : String) (pf : Option String) (now : Nat)
    (q : Party) (hp : dictLookup s.active_parties pid = some q)
    (hfull : q.members.length ≥ q.config.max_size) :
    ∃ m c, join_party s pid aid pf now = (.err m c, s) := by
  unfold join_party
  rw [hp]
  show ∃ m c, joinChecks s q pid aid pf now = (.err m c, s)
  unfold joinChecks
  by_cases ha : (q.members.any fun m => m.account_id == aid) = true
  · rw [if_pos ha]
    exact ⟨_, _, rfl⟩
  · rw [if_neg ha, if_pos hfull]
    exact ⟨_, _, rfl⟩

theorem finishSave_active (s3 : PartyState) (pid i : String) (po : Option String)
    (ru : String) :
    (finishSave s3 pid i po ru).2.active_parties = s3.active_parties := by
  unfold finishSave
  cases h : dictLookup s3.active_parties pid <;> rfl

theorem finishSave_pi (s3 : PartyState) (pid i : String) (po : Option String) (ru : String) :
    (finishSave s3 pid i po ru).2.party_invitations = s3.party_invitations := by
  unfold finishSave
  cases h : dictLookup s3.active_parties pid <;> rfl

theorem finishSave_result (s3 : PartyState) (pid i : String) (po : Option String)
    (ru : String) (p : Party) (hp : dictLookup s3.active_parties pid = some p) :
    (finishSave s3 pid i po ru).1 = .ok ⟨i, ru, po⟩ := by
  unfold finishSave
  rw [hp]

theorem markResponded_active (s : PartyState) (pid inv_id aid : String) (inv' : Invitation)
    (p : Party) (hp : dictLookup s.active_parties pid = some p) :
    (markResponded s pid inv_id aid inv').active_parties =
      dictInsert s.active_parties pid
        (setInvitations p (updateInvStatus p.invitations inv_id aid inv')) := by
  unfold markResponded
  simp only [hp]

theorem markResponded_lookup (s : PartyState) (pid inv_id aid : String) (inv' : Invitation)
    (p : Party) (hp : dictLookup s.active_parties pid = some p) :
    dictLookup (markResponded s pid inv_id aid inv').active_parties pid =
      some (setInvitations p (updateInvStatus p.invitations inv_id aid inv')) := by
  rw [markResponded_active s pid inv_id aid inv' p hp, dictLookup_insert]
  simp

theorem finishRespond_active (s : PartyState) (pid i aid : String) (po : Option String)
    (ru : String) :
    (finishRespond s pid i aid po ru).2.active_parties = s.active_parties := by
  unfold finishRespond
  rw [finishSave_active]

theorem finishRespond_recipient (s : PartyState) (pid i aid : String) (po : Option String)
    (ru : String) :
    ∀ x ∈ (dictLookup (finishRespond s pid i aid po ru).2.party_invitations aid).getD [],
      x.id ≠ i := by
  unfold finishRespond
  rw [finishSave_pi]
  cases h : dictLookup s.party_invitations aid with
  | none =>
    simp [h]
  | some l =>
    simp only [h, dictLookup_insert, eq_self_iff_true, if_true, Option.getD_some]
    intro x hx
    rw [List.mem_filter] at hx
    exact of_decide_eq_true hx.2

/-! ## C4: a response removes the invitation from the recipient index only -/

/-- C4 counterexample: after B declines invitation i1, the invitation is gone
from the recipient index but still stored in the party's invitation list (with
status DECLINE), contradicting deletion from every index. -/
theorem c4_counterexample :
    (respond_to_invitation psInvited "i1" "B" "DECLINE" 0).1 = .ok ⟨"i1", "DECLINE", none⟩ ∧
    dictLookup (respond_to_invitation psInvited "i1" "B" "DECLINE" 0).2.party_invitations "B"
      = some [] ∧
    ((dictLookup (respond_to_invitation psInvited "i1" "B" "DECLINE" 0).2.active_parties
        "p1").map (fun p => p.invitations.map (fun i => (i.id, i.status)))) =
      some [("i1", "DECLINE")] := by
  refine ⟨?_, ?_, ?_⟩ <;> decide

/-- C4 amended: a successful, non-expired response deletes the invitation from
the responder's recipient index but not from the owning party's invitation
list: the invitation remains there with its status overwritten to the
response. -/
theorem respond_cleans_recipient_index_only (s : PartyState) (inv_id aid resp : String)
    (now : Nat) (pid : String) (inv : Invitation)
    (hkeys : (s.active_parties.map Prod.fst).Nodup)
    (hf : findInvitation s.active_parties inv_id aid = some (pid, inv))
    (he : ¬ now > inv.expires_at) :
    (∀ x ∈ (dictLookup (respond_to_invitation s inv_id aid resp now).2.party_invitations
        aid).getD [], x.id ≠ inv_id) ∧
    (∃ p', dictLookup (respond_to_invitation s inv_id aid resp now).2.active_parties pid
        = some p' ∧ ∃ x ∈ p'.invitations, x.id = inv_id ∧ x.status = strUpper resp) := by
  obtain ⟨p, hp, hfi⟩ := findInvitation_lookup hkeys hf
  unfold respond_to_invitation
  simp only [hf]
  rw [if_neg he]
  by_cases hacc : strUpper resp = "ACCEPT"
  · rw [if_pos hacc]
    rw [resHasErrorKey_false]
    simp only [Bool.false_eq_true, if_false]
    constructor
    · exact finishRespond_recipient _ pid inv_id aid (some pid) (strUpper resp)
    · have hp1 := markResponded_lookup s pid inv_id aid (invUpd inv (strUpper resp) now) p hp
      obtain ⟨q', hq', hqi, _⟩ := join_party_invitations _ pid aid none now _ hp1
      rw [finishRespond_active]
      refine ⟨q', hq', ?_⟩
      refine ⟨invUpd inv (strUpper resp) now, ?_, ?_, rfl⟩
      · rw [hqi]
        exact mem_updateInvStatus _ hfi
      · exact (findInvInList_props hfi).1
  · rw [if_neg hacc]
    constructor
    · exact finishRespond_recipient _ pid inv_id aid none (strUpper resp)
    · rw [finishRespond_active]
      refine ⟨_, markResponded_lookup s pid inv_id aid (invUpd inv (strUpper resp) now) p hp, ?_⟩
      refine ⟨invUpd inv (strUpper resp) now, ?_, ?_, rfl⟩
      · exact mem_updateInvStatus _ hfi
      · exact (findInvInList_props hfi).1

/-! ## C7: symmetry of `are_friends` over service histories -/

theorem getS_def {m : List (String × List String)} {k : String} :
    getS m k = (dictLookup m k).getD [] := rfl

theorem are_friends_eq_getS (s : FriendsState) (a b : String) :
    are_friends s a b = decide (b ∈ getS s.friend_lists a) := by
  unfold are_friends getS
  cases h : dictLookup s.friend_lists a <;> simp

theorem getS_dictInsert (m : List (String × List String)) (k k' : String) (v : List String) :
    getS (dictInsert m k v) k' = if k' = k then v else getS m k' := by
  unfold getS
  rw [dictLookup_insert]
  split <;> rfl

theorem getS_ensure (m : List (String × List String)) (k c : String) :
    getS (if (dictLookup m k).isSome then m else dictInsert m k []) c = getS m c := by
  cases h : dictLookup m k with
  | some l => simp [h]
  | none =>
    simp only [h, Option.isSome_none, Bool.false_eq_true, if_false]
    rw [getS_dictInsert]
    by_cases hc : c = k
    · subst hc
      unfold getS
      rw [h]
      simp
    · simp [hc]

theorem getS_addFriendship (fl : List (String × List String)) (x y c : String) :
    getS (addFriendship fl x y) c =
      if c = y then setAdd (if y = x then setAdd (getS fl x) y else getS fl y) x
      else if c = x then setAdd (getS fl x) y
      else getS fl c := by
  unfold addFriendship
  simp only [← getS_def, getS_dictInsert, getS_ensure]

theorem mem_getS_addFriendship (fl : List (String × List String)) (x y a b : String) :
    b ∈ getS (addFriendship fl x y) a ↔
      b ∈ getS fl a ∨ (a = x ∧ b = y) ∨ (a = y ∧ b = x) := by
  rw [getS_addFriendship]
  by_cases hay : a = y <;> by_cases hax : a = x <;> by_cases hyx : y = x <;>
    simp_all [mem_setAdd]

theorem getS_discardStep (m : List (String × List String)) (k t c : String) :
    getS (discardStep m k t) c = if c = k then setDiscard (getS m k) t else getS m c := by
  unfold discardStep
  cases h : dictLookup m k with
  | none =>
    by_cases hc : c = k
    · subst hc
      unfold getS
      rw [h]
      simp [setDiscard]
    · simp [hc]
  | some l =>
    rw [getS_dictInsert]
    by_cases hc : c = k
    · simp [hc, getS, h]
    · simp [hc]

theorem mem_getS_discardStep (m : List (String × List String)) (k t a b : String) :
    b ∈ getS (discardStep m k t) a ↔ b ∈ getS m a ∧ ¬(a = k ∧ b = t) := by
  rw [getS_discardStep]
  by_cases hak : a = k
  · subst hak
    simp [mem_setDiscard]
  · simp [hak]

theorem SymFL_addFriendship {fl : List (String × List String)} (x y : String)
    (h : SymFL fl) : SymFL (addFriendship fl x y) := by
  intro a b
  rw [mem_getS_addFriendship, mem_getS_addFriendship, h a b]
  tauto

theorem SymFL_removePair {fl : List (String × List String)} (aid fid : String)
    (h : SymFL fl) : SymFL (discardStep (discardStep fl aid fid) fid aid) := by
  intro a b
  rw [mem_getS_discardStep, mem_getS_discardStep, mem_getS_discardStep, mem_getS_discardStep,
    h a b]
  tauto

theorem send_friend_request_fl (s : FriendsState) (f t m r : String) (n : Nat) :
    (send_friend_request s f t m r n).2.friend_lists = s.friend_lists := by
  unfold send_friend_request
  split
  · rfl
  · split
    · rfl
    · split
      · rfl
      · rfl

theorem removeFriendRequest_fl (s : FriendsState) (rid aid : String) :
    (removeFriendRequest s rid aid).friend_lists = s.friend_lists := rfl

theorem foldlRemove_fl (ids : List String) (s : FriendsState) :
    (ids.foldl (fun st rid =>
      match dictLookup st.pending_requests rid with
      | none => st
      | some r => removeFriendRequest st rid r.to_account_id) s).friend_lists =
      s.friend_lists := by
  induction ids generalizing s with
  | nil => rfl
  | cons i rest ih =>
    rw [List.foldl_cons, ih]
    cases h : dictLookup s.pending_requests i
    · rfl
    · rfl

theorem removeAllRequestsBetween_fl (s : FriendsState) (a b : String) :
    (removeAllRequestsBetween s a b).friend_lists = s.friend_lists := by
  unfold removeAllRequestsBetween
  exact foldlRemove_fl _ s

theorem cleanup_expired_requests_fl (s : FriendsState) (n : Nat) :
    (cleanup_expired_requests s n).friend_lists = s.friend_lists := by
  unfold cleanup_expired_requests
  exact foldlRemove_fl _ s

theorem respondChecks_fl (s : FriendsState) (fr : FriendRequest) (rid aid resp : String)
    (n : Nat) :
    (respondChecks s fr rid aid resp n).2.friend_lists = s.friend_lists ∨
    ∃ x y, (respondChecks s fr rid aid resp n).2.friend_lists =
      addFriendship s.friend_lists x y := by
  unfold respondChecks
  split
  · exact Or.inl rfl
  · split
    · exact Or.inl rfl
    · simp only [removeFriendRequest_fl]
      by_cases hacc : strUpper resp = "ACCEPT"
      · rw [if_pos hacc]
        exact Or.inr ⟨fr.from_account_id, fr.to_account_id, rfl⟩
      · rw [if_neg hacc]
        exact Or.inl rfl

theorem respond_fl (s : FriendsState) (rid aid resp : String) (n : Nat) :
    (respond_to_friend_request s rid aid resp n).2.friend_lists = s.friend_lists ∨
    ∃ x y, (respond_to_friend_request s rid aid resp n).2.friend_lists =
      addFriendship s.friend_lists x y := by
  unfold respond_to_friend_request
  cases h : dictLookup s.pending_requests rid with
  | none => exact Or.inl rfl
  | some fr => exact respondChecks_fl s fr rid aid resp n

theorem remove_friend_fl_true (s : FriendsState) (aid fid : String)
    (hg : are_friends s aid fid = true) :
    (remove_friend s aid fid).2.friend_lists =
      discardStep (discardStep s.friend_lists aid fid) fid aid := by
  unfold remove_friend
  rw [if_neg (by simp [hg])]

theorem remove_friend_noop (s : FriendsState) (aid fid : String)
    (hg : ¬ are_friends s aid fid = true) :
    (remove_friend s aid fid).2 = s := by
  unfold remove_friend
  rw [if_pos hg]

theorem unblock_user_fl (s : FriendsState) (a t : String) :
    (unblock_user s a t).2.friend_lists = s.friend_lists := by
  unfold unblock_user
  split
  · rfl
  · split
    · rfl
    · rfl

theorem FriendsSym_applyOp (s : FriendsState) (op : FOp) (h : FriendsSym s) :
    FriendsSym (s.applyOp op) := by
  cases op with
  | send f t m r n =>
    show SymFL (send_friend_request s f t m r n).2.friend_lists
    rw [send_friend_request_fl]
    exact h
  | respond rid aid resp n =>
    show SymFL (respond_to_friend_request s rid aid resp n).2.friend_lists
    rcases respond_fl s rid aid resp n with hfl | ⟨x, y, hfl⟩
    · rw [hfl]; exact h
    · rw [hfl]; exact SymFL_addFriendship x y h
  | remove aid fid =>
    show SymFL (remove_friend s aid fid).2.friend_lists
    by_cases hg : are_friends s aid fid = true
    · rw [remove_friend_fl_true s aid fid hg]
      exact SymFL_removePair aid fid h
    · rw [remove_friend_noop s aid fid hg]
      exact h
  | block a t =>
    show SymFL (block_user s a t).2.friend_lists
    unfold block_user
    rw [removeAllRequestsBetween_fl]
    by_cases hg : are_friends s a t = true
    · rw [if_pos hg, remove_friend_fl_true s a t hg]
      exact SymFL_removePair a t h
    · rw [if_neg hg]
      exact h
  | unblock a t =>
    show SymFL (unblock_user s a t).2.friend_lists
    rw [unblock_user_fl]
    exact h
  | sweep n =>
    show SymFL (cleanup_expired_requests s n).friend_lists
    rw [cleanup_expired_requests_fl]
    exact h

theorem FriendsSym_reachable (s : FriendsState) (h : FReachable s) : FriendsSym s := by
  induction h with
  | init =>
    intro a b
    simp [FriendsState.initial, getS, dictLookup]
  | step s op hs ih => exact FriendsSym_applyOp s op ih

/-- C7: after every sequence of FriendGraph operations, `are_friends a b`
equals `are_friends b a`. -/
theorem are_friends_symmetric (s : FriendsState) (h : FReachable s) (a b : String) :
    are_friends s a b = are_friends s b a := by
  rw [are_friends_eq_getS, are_friends_eq_getS]
  exact decide_eq_decide.mpr (FriendsSym_reachable s h a b)

/-- Witness for C7 at a history that builds one friendship. -/
theorem are_friends_symmetric_witness :
    are_friends fsTrace "A" "B" = are_friends fsTrace "B" "A" ∧
    are_friends fsTrace "A" "B" = true :=
  ⟨are_friends_symmetric fsTrace
    (FReachable.step (FriendsState.applyOp FriendsState.initial (FOp.send "A" "B" "" "r1" 0))
      (FOp.respond "r1" "B" "ACCEPT" 1)
      (FReachable.step FriendsState.initial (FOp.send "A" "B" "" "r1" 0) FReachable.init))
    "A" "B",
   by decide⟩

/-! ## C8: effects of `handle_user_disconnect` -/

theorem getS_dictErase (m : List (String × List String)) (k c : String) :
    getS (dictErase m k) c = if c = k then [] else getS m c := by
  unfold getS
  rw [dictLookup_erase]
  split <;> rfl

theorem unsubStep_us (st : PresenceState) (sub t c : String) :
    getS (unsubStep st sub t).user_subscriptions c =
      if c = sub then setDiscard (getS st.user_subscriptions sub) t
      else getS st.user_subscriptions c := by
  show getS (discardStep st.user_subscriptions sub t) c = _
  rw [getS_discardStep]

theorem unsubStep_ps (st : PresenceState) (sub t c : String) :
    getS (unsubStep st sub t).presence_subscriptions c =
      if c = t then setDiscard (getS st.presence_subscriptions t) sub
      else getS st.presence_subscriptions c := by
  unfold unsubStep
  cases h : dictLookup st.presence_subscriptions t with
  | none =>
    simp only [h]
    by_cases hc : c = t
    · subst hc
      rw [if_pos rfl]
      unfold getS
      rw [h]
      simp [setDiscard]
    · rw [if_neg hc]
  | some l =>
    simp only [h]
    by_cases he : setDiscard l sub = []
    · rw [if_pos he, getS_dictErase]
      by_cases hc : c = t
      · subst hc
        rw [if_pos rfl, if_pos rfl]
        unfold getS
        rw [h]
        simp [he]
      · rw [if_neg hc, if_neg hc]
    · rw [if_neg he, getS_dictInsert]
      by_cases hc : c = t
      · subst hc
        rw [if_pos rfl, if_pos rfl]
        unfold getS
        rw [h]
        rfl
      · rw [if_neg hc, if_neg hc]

theorem unsubStep_presence (st : PresenceState) (sub t : String) :
    (unsubStep st sub t).user_presence = st.user_presence := rfl

theorem unsubFold_us (tids : List String) (sub x y : String) :
    ∀ st : PresenceState,
      y ∈ getS ((tids.foldl (fun st t => unsubStep st sub t) st).user_subscriptions) x ↔
        y ∈ getS st.user_subscriptions x ∧ ¬(x = sub ∧ y ∈ tids) := by
  induction tids with
  | nil =>
    intro st
    simp
  | cons t rest ih =>
    intro st
    rw [List.foldl_cons, ih (unsubStep st sub t), unsubStep_us]
    by_cases hx : x = sub
    · subst hx
      rw [if_pos rfl]
      simp [mem_setDiscard]
      tauto
    · rw [if_neg hx]
      simp [hx]


theorem unsubFold_ps (tids : List String) (sub x y : String) :
    ∀ st : PresenceState,
      x ∈ getS ((tids.foldl (fun st t => unsubStep st sub t) st).presence_subscriptions) y ↔
        x ∈ getS st.presence_subscriptions y ∧ ¬(y ∈ tids ∧ x = sub) := by
  induction tids with
  | nil =>
    intro st
    simp
  | cons t rest ih =>
    intro st
    rw [List.foldl_cons, ih (unsubStep st sub t), unsubStep_ps]
    by_cases hyt : y = t
    · subst hyt
      rw [if_pos rfl]
      simp [mem_setDiscard]
      tauto
    · rw [if_neg hyt]
      simp [hyt]

theorem unsubFold_presence (tids : List String) (sub : String) :
    ∀ st : PresenceState,
      (tids.foldl (fun st t => unsubStep st sub t) st).user_presence = st.user_presence := by
  induction tids with
  | nil =>
    intro st
    rfl
  | cons t rest ih =>
    intro st
    rw [List.foldl_cons, ih (unsubStep st sub t)]
    rfl

theorem unsubCleanup_getS (s1 : PresenceState) (sub c : String) :
    getS (unsubCleanup s1 sub).user_subscriptions c = getS s1.user_subscriptions c := by
  unfold unsubCleanup
  split
  · rfl
  · rename_i l heq
    split
    · rename_i he
      rw [getS_dictErase]
      by_cases hc : c = sub
      · subst hc
        rw [if_pos rfl]
        unfold getS
        rw [heq, he]
        rfl
      · rw [if_neg hc]
    · rfl

theorem unsubCleanup_ps (s1 : PresenceState) (sub : String) :
    (unsubCleanup s1 sub).presence_subscriptions = s1.presence_subscriptions := by
  unfold unsubCleanup
  split
  · rfl
  · split <;> rfl

theorem unsubCleanup_presence (s1 : PresenceState) (sub : String) :
    (unsubCleanup s1 sub).user_presence = s1.user_presence := by
  unfold unsubCleanup
  split
  · rfl
  · split <;> rfl

theorem unsub_none_us (s : PresenceState) (sub x y : String) :
    y ∈ getS (unsubscribe_from_presence s sub none).user_subscriptions x ↔
      y ∈ getS s.user_subscriptions x ∧ ¬(x = sub ∧ y ∈ getS s.user_subscriptions sub) := by
  unfold unsubscribe_from_presence
  simp only [unsubCleanup_getS]
  rw [unsubFold_us]
  exact Iff.rfl

theorem unsub_none_ps (s : PresenceState) (sub x y : String) :
    x ∈ getS (unsubscribe_from_presence s sub none).presence_subscriptions y ↔
      x ∈ getS s.presence_subscriptions y ∧ ¬(y ∈ getS s.user_subscriptions sub ∧ x = sub) := by
  unfold unsubscribe_from_presence
  simp only [unsubCleanup_ps]
  rw [unsubFold_ps]
  exact Iff.rfl

theorem unsub_presence (s : PresenceState) (sub : String) (targets : Option (List String)) :
    (unsubscribe_from_presence s sub targets).user_presence = s.user_presence := by
  unfold unsubscribe_from_presence
  simp only [unsubCleanup_presence, unsubFold_presence]

/-- The mirror check implies the two subscription maps describe the same edge
set. -/
theorem mirrorOK_spec (s : PresenceState) (h : mirrorOK s = true) (x y : String) :
    y ∈ getS s.user_subscriptions x ↔ x ∈ getS s.presence_subscriptions y := by
  unfold mirrorOK at h
  rw [Bool.and_eq_true, List.all_eq_true, List.all_eq_true] at h
  obtain ⟨h1, h2⟩ := h
  constructor
  · intro hy
    unfold getS at hy
    cases hl : dictLookup s.user_subscriptions x with
    | none => rw [hl] at hy; simp at hy
    | some l =>
      rw [hl] at hy
      simp only [Option.getD_some] at hy
      have hme := h1 (x, l) (dictLookup_mem hl)
      rw [List.all_eq_true] at hme
      exact of_decide_eq_true (hme y hy)
  · intro hx
    unfold getS at hx
    cases hl : dictLookup s.presence_subscriptions y with
    | none => rw [hl] at hx; simp at hx
    | some l =>
      rw [hl] at hx
      simp only [Option.getD_some] at hx
      have hme := h2 (y, l) (dictLookup_mem hl)
      rw [List.all_eq_true] at hme
      exact of_decide_eq_true (hme x hx)

theorem disconnect_core_us (s : PresenceState) (A x y : String) :
    y ∈ getS (unsubscribe_from_presence s A none).user_subscriptions x ↔
      (y ∈ getS s.user_subscriptions x ∧ x ≠ A) := by
  rw [unsub_none_us]
  by_cases hx : x = A
  · subst hx
    simp
  · simp [hx]

theorem disconnect_core_ps (s : PresenceState) (A : String) (hm : mirrorOK s = true)
    (x y : String) :
    x ∈ getS (unsubscribe_from_presence s A none).presence_subscriptions y ↔
      (x ∈ getS s.presence_subscriptions y ∧ x ≠ A) := by
  rw [unsub_none_ps]
  by_cases hx : x = A
  · subst hx
    constructor
    · rintro ⟨h1, h2⟩
      exact absurd ⟨(mirrorOK_spec s hm x y).mpr h1, rfl⟩ h2
    · rintro ⟨h1, h2⟩
      exact absurd rfl h2
  · constructor
    · rintro ⟨h1, _⟩
      exact ⟨h1, hx⟩
    · rintro ⟨h1, _⟩
      exact ⟨h1, fun hc => hx hc.2⟩

/-- C8: `handle_user_disconnect A` removes exactly the subscription edges whose
subscriber is A (visible on both mirrored maps), keeps every edge with a
different subscriber — in particular all edges targeting A — and, when A has a
presence record, forces it offline with emptied properties and activities,
leaving every other presence record untouched. -/
theorem handle_user_disconnect_eq_none (s : PresenceState) (A : String) (now : Nat)
    (hup : dictLookup s.user_presence A = none) :
    handle_user_disconnect s A now = unsubscribe_from_presence s A none := by
  unfold handle_user_disconnect
  rw [hup]

theorem handle_user_disconnect_eq_some (s : PresenceState) (A : String) (now : Nat)
    (p : PresenceRecord) (hup : dictLookup s.user_presence A = some p) :
    handle_user_disconnect s A now =
      unsubscribe_from_presence
        { s with user_presence := dictInsert s.user_presence A (offlineReset p now) } A none := by
  unfold handle_user_disconnect
  rw [hup]

theorem handle_user_disconnect_effects (s : PresenceState) (A : String) (now : Nat)
    (hm : mirrorOK s = true) :
    (∀ x y, y ∈ getS (handle_user_disconnect s A now).user_subscriptions x ↔
        (y ∈ getS s.user_subscriptions x ∧ x ≠ A)) ∧
    (∀ x y, x ∈ getS (handle_user_disconnect s A now).presence_subscriptions y ↔
        (x ∈ getS s.presence_subscriptions y ∧ x ≠ A)) ∧
    (∀ p, dictLookup s.user_presence A = some p →
        dictLookup (handle_user_disconnect s A now).user_presence A =
          some (offlineReset p now)) ∧
    (dictLookup s.user_presence A = none →
        (handle_user_disconnect s A now).user_presence = s.user_presence) ∧
    (∀ b, b ≠ A → dictLookup (handle_user_disconnect s A now).user_presence b =
        dictLookup s.user_presence b) := by
  cases hup : dictLookup s.user_presence A with
  | none =>
    rw [handle_user_disconnect_eq_none s A now hup]
    refine ⟨fun x y => disconnect_core_us s A x y, fun x y => disconnect_core_ps s A hm x y,
      ?_, ?_, ?_⟩
    · intro p hp
      exact absurd hp (by simp)
    · intro _
      rw [unsub_presence]
    · intro b hb
      rw [unsub_presence]
  | some p0 =>
    rw [handle_user_disconnect_eq_some s A now p0 hup]
    refine ⟨?_, ?_, ?_, ?_, ?_⟩
    · intro x y
      exact disconnect_core_us _ A x y
    · intro x y
      exact disconnect_core_ps
        { s with user_presence := dictInsert s.user_presence A (offlineReset p0 now) } A hm x y
    · intro p hp
      injection hp with hp
      subst hp
      rw [unsub_presence]
      show dictLookup (dictInsert s.user_presence A _) A = _
      rw [dictLookup_insert, if_pos rfl]
    · intro hcon
      exact absurd hcon (by simp)
    · intro b hb
      rw [unsub_presence]
      show dictLookup (dictInsert s.user_presence A _) b = _
      rw [dictLookup_insert, if_neg hb]

/-- Witness for C8 at a state with reciprocal subscriptions and a stored
presence record. -/
theorem handle_user_disconnect_effects_witness :
    mirrorOK prState = true ∧
    (∀ x y, y ∈ getS (handle_user_disconnect prState "A" 7).user_subscriptions x ↔
        (y ∈ getS prState.user_subscriptions x ∧ x ≠ "A")) :=
  ⟨by decide, (handle_user_disconnect_effects prState "A" 7 (by decide)).1⟩

/-! ## C1 and C5: the party membership and captain invariants -/

theorem membersOfMap_insert (m : List (String × Party)) (k : String) (p : Party) (c : String) :
    membersOfMap (dictInsert m k p) c =
      if c = k then p.members.map (fun x => x.account_id) else membersOfMap m c := by
  unfold membersOfMap
  rw [dictLookup_insert]
  by_cases hc : c = k
  · rw [if_pos hc, if_pos hc]
  · rw [if_neg hc, if_neg hc]

theorem membersOfMap_erase (m : List (String × Party)) (k c : String) :
    membersOfMap (dictErase m k) c = if c = k then [] else membersOfMap m c := by
  unfold membersOfMap
  rw [dictLookup_erase]
  by_cases hc : c = k
  · rw [if_pos hc, if_pos hc]
  · rw [if_neg hc, if_neg hc]

theorem mem_membersOfMap {m : List (String × Party)} {c a : String}
    (h : a ∈ membersOfMap m c) :
    ∃ p, dictLookup m c = some p ∧ a ∈ p.members.map (fun x => x.account_id) := by
  unfold membersOfMap at h
  cases hl : dictLookup m c with
  | none => rw [hl] at h; simp at h
  | some p => rw [hl] at h; exact ⟨p, rfl, h⟩

theorem membersOfMap_eq_of_lookup {m : List (String × Party)} {c : String} {p : Party}
    (h : dictLookup m c = some p) :
    membersOfMap m c = p.members.map (fun x => x.account_id) := by
  unfold membersOfMap
  rw [h]

theorem optMembers_insert (m : List (String × Party)) (k : String) (p : Party) (c : String) :
    (dictLookup (dictInsert m k p) c).map Party.members =
      if c = k then some p.members else (dictLookup m c).map Party.members := by
  rw [dictLookup_insert]
  split <;> rfl

theorem optMembers_erase (m : List (String × Party)) (k c : String) :
    (dictLookup (dictErase m k) c).map Party.members =
      if c = k then none else (dictLookup m c).map Party.members := by
  rw [dictLookup_erase]
  split <;> rfl

theorem dbsync_none {db ap : List (String × Party)} {pid : String}
    (hdb : (dictLookup db pid).map Party.members = (dictLookup ap pid).map Party.members)
    (h : dictLookup ap pid = none) : dictLookup db pid = none := by
  rw [h] at hdb
  simpa using hdb

theorem popFirst_decomp {ms : List PartyMember} {aid : String} {r : PartyMember}
    {rest : List PartyMember} (h : popFirst ms aid = some (r, rest)) :
    ∃ l1 l2, ms = l1 ++ r :: l2 ∧ rest = l1 ++ l2 ∧ r.account_id = aid ∧
      ∀ m ∈ l1, m.account_id ≠ aid := by
  induction ms generalizing r rest with
  | nil => simp [popFirst] at h
  | cons m ms ih =>
    by_cases hm : m.account_id = aid
    · simp only [popFirst, if_pos hm] at h
      injection h with h
      obtain ⟨rfl, rfl⟩ := Prod.mk.injEq _ _ _ _ |>.mp h
      exact ⟨[], ms, rfl, rfl, hm, by simp⟩
    · simp only [popFirst, if_neg hm] at h
      cases hrec : popFirst ms aid with
      | none => rw [hrec] at h; simp at h
      | some pr =>
        obtain ⟨r0, rest0⟩ := pr
        rw [hrec] at h
        injection h with h
        obtain ⟨h5, h6⟩ := Prod.mk.injEq _ _ _ _ |>.mp h
        subst h5
        subst h6
        obtain ⟨l1, l2, h1, h2, h3, h4⟩ := ih hrec
        refine ⟨m :: l1, l2, by rw [List.cons_append, h1], by rw [List.cons_append, h2], h3, ?_⟩
        intro x hx
        rcases List.mem_cons.mp hx with rfl | hx
        · exact hm
        · exact h4 x hx

theorem captainCount_append (l1 l2 : List PartyMember) :
    captainCount (l1 ++ l2) = captainCount l1 + captainCount l2 :=
  List.countP_append _ _ _

theorem promoteHead_map_id (ms : List PartyMember) :
    (promoteHead ms).map (fun x => x.account_id) = ms.map (fun x => x.account_id) := by
  cases ms <;> rfl

theorem captainCount_promoteHead (ms : List PartyMember) (hne : ms ≠ [])
    (h : captainCount ms = 0) : captainCount (promoteHead ms) = 1 := by
  cases ms with
  | nil => exact absurd rfl hne
  | cons m t =>
    unfold promoteHead
    unfold captainCount at h ⊢
    rw [List.countP_cons] at h ⊢
    simp at h ⊢
    exact h.1

theorem setReady_map_id (ms : List PartyMember) (aid : String) (r : Bool) :
    (setReady ms aid r).1.map (fun x => x.account_id) = ms.map (fun x => x.account_id) := by
  induction ms with
  | nil => rfl
  | cons m t ih =>
    unfold setReady
    by_cases hm : m.account_id = aid
    · rw [if_pos hm]
      simp
    · rw [if_neg hm]
      simp [ih]

theorem setReady_captainCount (ms : List PartyMember) (aid : String) (r : Bool) :
    captainCount (setReady ms aid r).1 = captainCount ms := by
  induction ms with
  | nil => rfl
  | cons m t ih =>
    unfold setReady
    by_cases hm : m.account_id = aid
    · rw [if_pos hm]
      unfold captainCount
      rw [List.countP_cons, List.countP_cons]
    · rw [if_neg hm]
      unfold captainCount at ih ⊢
      simp [List.countP_cons, ih]

/-- Transfer of `PInv` along a state change that preserves membership,
the account ↦ party map, and captain counts. -/
theorem PInv_transfer {s s' : PartyState} (hs : PInv s)
    (h1 : ∀ pid, membersOf s' pid = membersOf s pid)
    (h2 : s'.user_parties = s.user_parties)
    (h3 : ∀ pid p', dictLookup s'.active_parties pid = some p' →
        ∃ p, dictLookup s.active_parties pid = some p ∧
          captainCount p'.members = captainCount p.members)
    (h4 : ∀ pid, (dictLookup s'.db_parties pid).map Party.members =
        (dictLookup s'.active_parties pid).map Party.members) : PInv s' := by
  refine ⟨?_, ?_, ?_, ?_, h4⟩
  · intro a pid ha
    rw [h1 pid] at ha
    rw [h2]
    exact hs.uniq a pid ha
  · intro pid hsome
    rw [h1 pid]
    obtain ⟨p', hp'⟩ := Option.isSome_iff_exists.mp hsome
    obtain ⟨p, hp, _⟩ := h3 pid p' hp'
    exact hs.mnonempty pid (by rw [hp]; rfl)
  · intro pid
    rw [h1 pid]
    exact hs.mnodup pid
  · intro pid p' hp'
    obtain ⟨p, hp, hc⟩ := h3 pid p' hp'
    rw [hc]
    exact hs.captain pid p hp

theorem alreadyInActiveParty_false {s : PartyState} {aid : String}
    (h : ¬ alreadyInActiveParty s aid = true) :
    ∀ cur, dictLookup s.user_parties aid = some cur →
      dictLookup s.active_parties cur = none := by
  intro cur hc
  cases hl : dictLookup s.active_parties cur with
  | none => rfl
  | some q =>
    exfalso
    apply h
    unfold alreadyInActiveParty
    rw [hc]
    show (dictLookup s.active_parties cur).isSome = true
    rw [hl]
    rfl

theorem inAnotherParty_false {s1 : PartyState} {pid aid : String}
    (h : ¬ inAnotherParty s1 pid aid = true) :
    ∀ cur, dictLookup s1.user_parties aid = some cur →
      cur = pid ∨ dictLookup s1.active_parties cur = none := by
  intro cur hc
  by_cases hcp : cur = pid
  · exact Or.inl hcp
  · right
    cases hl : dictLookup s1.active_parties cur with
    | none => rfl
    | some q =>
      exfalso
      apply h
      unfold inAnotherParty
      rw [hc]
      show (cur != pid && (dictLookup s1.active_parties cur).isSome) = true
      rw [hl]
      simp [hcp]

theorem any_eq_false_notin {ms : List PartyMember} {aid : String}
    (h : ¬ (ms.any fun m => m.account_id == aid) = true) :
    aid ∉ ms.map (fun x => x.account_id) := by
  intro hmem
  apply h
  rw [List.any_eq_true]
  obtain ⟨x, hx, hxa⟩ := List.mem_map.mp hmem
  exact ⟨x, hx, by rw [hxa]; simp⟩

theorem PInv_initial : PInv PartyState.initial := by
  refine ⟨?_, ?_, ?_, ?_, ?_⟩
  · intro a pid ha
    simp [membersOf, membersOfMap, dictLookup, PartyState.initial] at ha
  · intro pid h
    simp [dictLookup, PartyState.initial] at h
  · intro pid
    simp [membersOf, membersOfMap, dictLookup, PartyState.initial]
  · intro pid p h
    simp [dictLookup, PartyState.initial] at h
  · intro pid
    rfl

theorem PInv_create (s : PartyState) (aid : String) (cfg : Option PartyConfigPatch)
    (pid : String) (now : Nat) (hs : PInv s) : PInv (create_party s aid cfg pid now).2 := by
  unfold create_party
  by_cases hb : alreadyInActiveParty s aid = true
  · rw [if_pos hb]
    exact hs
  · rw [if_neg hb]
    set party : Party :=
      ⟨pid, now, now,
        match cfg with | none => defaultConfig | some p => applyPatch defaultConfig p,
        [mkCaptain aid now], []⟩ with hparty
    refine ⟨?_, ?_, ?_, ?_, ?_⟩
    · intro a q ha
      show dictLookup (dictInsert s.user_parties aid pid) a = some q
      have ha' : a ∈ membersOfMap (dictInsert s.active_parties pid party) q := ha
      rw [membersOfMap_insert] at ha'
      by_cases hq : q = pid
      · subst hq
        rw [if_pos rfl] at ha'
        simp [mkCaptain] at ha'
        subst ha'
        rw [dictLookup_insert, if_pos rfl]
      · rw [if_neg hq] at ha'
        have huq := hs.uniq a q ha'
        by_cases haid : a = aid
        · subst haid
          obtain ⟨p0, hp0, _⟩ := mem_membersOfMap ha'
          rw [alreadyInActiveParty_false hb q huq] at hp0
          exact absurd hp0 (by simp)
        · rw [dictLookup_insert, if_neg haid]
          exact huq
    · intro q hsome
      show membersOfMap (dictInsert s.active_parties pid party) q ≠ []
      rw [membersOfMap_insert]
      by_cases hq : q = pid
      · rw [if_pos hq]
        simp
      · rw [if_neg hq]
        apply hs.mnonempty
        have : dictLookup (dictInsert s.active_parties pid party) q =
            dictLookup s.active_parties q := by
          rw [dictLookup_insert, if_neg hq]
        rw [this] at hsome
        exact hsome
    · intro q
      show (membersOfMap (dictInsert s.active_parties pid party) q).Nodup
      rw [membersOfMap_insert]
      by_cases hq : q = pid
      · rw [if_pos hq]
        simp
      · rw [if_neg hq]
        exact hs.mnodup q
    · intro q p' hp'
      have hp2 : dictLookup (dictInsert s.active_parties pid party) q = some p' := hp'
      by_cases hq : q = pid
      · subst hq
        rw [dictLookup_insert, if_pos rfl] at hp2
        injection hp2 with hp2
        subst hp2
        rfl
      · rw [dictLookup_insert, if_neg hq] at hp2
        exact hs.captain q p' hp2
    · intro q
      show (dictLookup (dictInsert s.db_parties pid party) q).map Party.members =
        (dictLookup (dictInsert s.active_parties pid party) q).map Party.members
      rw [optMembers_insert, optMembers_insert]
      by_cases hq : q = pid
      · rw [if_pos hq, if_pos hq]
      · rw [if_neg hq, if_neg hq]
        exact hs.dbsync q

theorem PInv_get (s : PartyState) (pid : String) (hs : PInv s) : PInv (get_party s pid).2 := by
  unfold get_party
  cases h : dictLookup s.active_parties pid with
  | some p => exact hs
  | none =>
    rw [dbsync_none (hs.dbsync pid) h]
    exact hs

theorem PInv_joinChecks (s1 : PartyState) (party : Party) (pid aid : String)
    (pf : Option String) (now : Nat) (hs : PInv s1)
    (hp : dictLookup s1.active_parties pid = some party) :
    PInv (joinChecks s1 party pid aid pf now).2 := by
  unfold joinChecks
  by_cases hany : (party.members.any fun m => m.account_id == aid) = true
  · rw [if_pos hany]
    exact hs
  · rw [if_neg hany]
    by_cases hfull : party.members.length ≥ party.config.max_size
    · rw [if_pos hfull]
      exact hs
    · rw [if_neg hfull]
      by_cases hin : inAnotherParty s1 pid aid = true
      · rw [if_pos hin]
        exact hs
      · rw [if_neg hin]
        have hnotin := any_eq_false_notin hany
        set party' : Party :=
          { party with members := party.members ++ [mkMember aid now pf], updated_at := now }
          with hparty'
        have hmap : party'.members.map (fun x => x.account_id) =
            party.members.map (fun x => x.account_id) ++ [aid] := by
          rw [hparty']
          simp [mkMember]
        refine ⟨?_, ?_, ?_, ?_, ?_⟩
        · intro a q ha
          show dictLookup (dictInsert s1.user_parties aid pid) a = some q
          have ha' : a ∈ membersOfMap (dictInsert s1.active_parties pid party') q := ha
          rw [membersOfMap_insert] at ha'
          by_cases hq : q = pid
          · subst hq
            rw [if_pos rfl, hmap] at ha'
            rcases List.mem_append.mp ha' with hold | hnew
            · have huq := hs.uniq a q (by
                rw [show membersOf s1 q = membersOfMap s1.active_parties q from rfl,
                  membersOfMap_eq_of_lookup hp]
                exact hold)
              by_cases haid : a = aid
              · subst haid
                rw [dictLookup_insert, if_pos rfl]
              · rw [dictLookup_insert, if_neg haid]
                exact huq
            · simp at hnew
              subst hnew
              rw [dictLookup_insert, if_pos rfl]
          · rw [if_neg hq] at ha'
            have huq := hs.uniq a q ha'
            by_cases haid : a = aid
            · subst haid
              rcases inAnotherParty_false hin q huq with hq' | hnone
              · exact absurd hq' hq
              · obtain ⟨p0, hp0, _⟩ := mem_membersOfMap ha'
                rw [hnone] at hp0
                exact absurd hp0 (by simp)
            · rw [dictLookup_insert, if_neg haid]
              exact huq
        · intro q hsome
          show membersOfMap (dictInsert s1.active_parties pid party') q ≠ []
          rw [membersOfMap_insert]
          by_cases hq : q = pid
          · rw [if_pos hq, hmap]
            simp
          · rw [if_neg hq]
            apply hs.mnonempty
            have heq : dictLookup (dictInsert s1.active_parties pid party') q =
                dictLookup s1.active_parties q := by
              rw [dictLookup_insert, if_neg hq]
            rw [heq] at hsome
            exact hsome
        · intro q
          show (membersOfMap (dictInsert s1.active_parties pid party') q).Nodup
          rw [membersOfMap_insert]
          by_cases hq : q = pid
          · rw [if_pos hq, hmap]
            have hnd : (party.members.map (fun x => x.account_id)).Nodup := by
              have := hs.mnodup pid
              rw [show membersOf s1 pid = membersOfMap s1.active_parties pid from rfl,
                membersOfMap_eq_of_lookup hp] at this
              exact this
            simp [List.nodup_append, hnd, hnotin]
          · rw [if_neg hq]
            exact hs.mnodup q
        · intro q p' hp'
          have hp2 : dictLookup (dictInsert s1.active_parties pid party') q = some p' := hp'
          by_cases hq : q = pid
          · subst hq
            rw [dictLookup_insert, if_pos rfl] at hp2
            injection hp2 with hp2
            subst hp2
            rw [hparty']
            show captainCount (party.members ++ [mkMember aid now pf]) = 1
            rw [captainCount_append]
            have h1 := hs.captain q party hp
            have h2 : captainCount [mkMember aid now pf] = 0 := rfl
            rw [h1, h2]
          · rw [dictLookup_insert, if_neg hq] at hp2
            exact hs.captain q p' hp2
        · intro q
          show (dictLookup (dictInsert s1.db_parties pid party') q).map Party.members =
            (dictLookup (dictInsert s1.active_parties pid party') q).map Party.members
          rw [optMembers_insert, optMembers_insert]
          by_cases hq : q = pid
          · rw [if_pos hq, if_pos hq]
          · rw [if_neg hq, if_neg hq]
            exact hs.dbsync q

theorem PInv_join (s : PartyState) (pid aid : String) (pf : Option String) (now : Nat)
    (hs : PInv s) : PInv (join_party s pid aid pf now).2 := by
  unfold join_party
  cases h : dictLookup s.active_parties pid with
  | some party => exact PInv_joinChecks s party pid aid pf now hs h
  | none =>
    rw [dbsync_none (hs.dbsync pid) h]
    exact hs

theorem PInv_leaveUpdate (s : PartyState) (party : Party) (pid aid : String)
    (removed : PartyMember) (rest : List PartyMember) (now : Nat) (hs : PInv s)
    (hp : dictLookup s.active_parties pid = some party)
    (hpop : popFirst party.members aid = some (removed, rest)) :
    PInv (leaveUpdate s party pid aid removed rest now).2 := by
  obtain ⟨l1, l2, hms, hrest, hacc, hl1⟩ := popFirst_decomp hpop
  have hmem_aid : aid ∈ membersOfMap s.active_parties pid := by
    rw [membersOfMap_eq_of_lookup hp, hms, List.map_append]
    refine List.mem_append.mpr (Or.inr ?_)
    rw [List.map_cons, hacc]
    exact List.mem_cons_self _ _
  have hup_aid : dictLookup s.user_parties aid = some pid := hs.uniq aid pid hmem_aid
  have hids : party.members.map (fun x => x.account_id) =
      l1.map (fun x => x.account_id) ++ aid :: l2.map (fun x => x.account_id) := by
    rw [hms, List.map_append, List.map_cons, hacc]
  have hnd := hs.mnodup pid
  rw [show membersOf s pid = membersOfMap s.active_parties pid from rfl,
    membersOfMap_eq_of_lookup hp, hids, List.nodup_append] at hnd
  obtain ⟨hnd1, hnd2, hdisj⟩ := hnd
  rw [List.nodup_cons] at hnd2
  obtain ⟨haid2, hnd2⟩ := hnd2
  have haid1 : aid ∉ l1.map (fun x => x.account_id) :=
    fun h => hdisj h (List.mem_cons_self _ _)
  have hdisj' : ∀ x ∈ l1.map (fun m => m.account_id), x ∉ l2.map (fun m => m.account_id) :=
    fun x hx hx2 => hdisj hx (List.mem_cons_of_mem _ hx2)
  have hrest_ids : rest.map (fun x => x.account_id) =
      l1.map (fun x => x.account_id) ++ l2.map (fun x => x.account_id) := by
    rw [hrest, List.map_append]
  have hnotin_rest : aid ∉ rest.map (fun x => x.account_id) := by
    rw [hrest_ids]
    intro hmem
    rcases List.mem_append.mp hmem with h1 | h2
    · exact haid1 h1
    · exact haid2 h2
  have hnodup_rest : (rest.map (fun x => x.account_id)).Nodup := by
    rw [hrest_ids, List.nodup_append]
    exact ⟨hnd1, hnd2, hdisj'⟩
  have hsub : ∀ a, a ∈ rest.map (fun x => x.account_id) →
      a ∈ membersOfMap s.active_parties pid := by
    intro a hmem
    rw [membersOfMap_eq_of_lookup hp, hids]
    rw [hrest_ids] at hmem
    rcases List.mem_append.mp hmem with h1 | h2
    · exact List.mem_append.mpr (Or.inl h1)
    · exact List.mem_append.mpr (Or.inr (List.mem_cons_of_mem _ h2))
  have hcnt := hs.captain pid party hp
  rw [hms, captainCount_append] at hcnt
  have hcons : captainCount (removed :: l2) =
      captainCount l2 + (if removed.role = "CAPTAIN" then 1 else 0) := by
    unfold captainCount
    rw [List.countP_cons]
    by_cases hr : removed.role = "CAPTAIN" <;> simp [hr]
  have hcrest : captainCount rest = captainCount l1 + captainCount l2 := by
    rw [hrest, captainCount_append]
  unfold leaveUpdate
  by_cases hre : rest = []
  · rw [if_pos hre]
    refine ⟨?_, ?_, ?_, ?_, ?_⟩
    · intro a q ha
      have ha' : a ∈ membersOfMap (dictErase s.active_parties pid) q := ha
      rw [membersOfMap_erase] at ha'
      by_cases hq : q = pid
      · rw [if_pos hq] at ha'
        simp at ha'
      · rw [if_neg hq] at ha'
        have huq := hs.uniq a q ha'
        show dictLookup (dictErase s.user_parties aid) a = some q
        by_cases haid : a = aid
        · subst haid
          rw [huq] at hup_aid
          exact absurd (Option.some.inj hup_aid) hq
        · rw [dictLookup_erase, if_neg haid]
          exact huq
    · intro q hsome
      show membersOfMap (dictErase s.active_parties pid) q ≠ []
      rw [membersOfMap_erase]
      by_cases hq : q = pid
      · exfalso
        have hnone : dictLookup (dictErase s.active_parties pid) q = none := by
          rw [dictLookup_erase, if_pos hq]
        have hsome' : (dictLookup (dictErase s.active_parties pid) q).isSome = true := hsome
        rw [hnone] at hsome'
        simp at hsome'
      · rw [if_neg hq]
        apply hs.mnonempty
        have heq : dictLookup (dictErase s.active_parties pid) q =
            dictLookup s.active_parties q := by
          rw [dictLookup_erase, if_neg hq]
        have hsome' : (dictLookup (dictErase s.active_parties pid) q).isSome = true := hsome
        rw [heq] at hsome'
        exact hsome'
    · intro q
      show (membersOfMap (dictErase s.active_parties pid) q).Nodup
      rw [membersOfMap_erase]
      by_cases hq : q = pid
      · rw [if_pos hq]
        simp
      · rw [if_neg hq]
        exact hs.mnodup q
    · intro q p' hp'
      have hp2 : dictLookup (dictErase s.active_parties pid) q = some p' := hp'
      rw [dictLookup_erase] at hp2
      by_cases hq : q = pid
      · rw [if_pos hq] at hp2
        exact absurd hp2 (by simp)
      · rw [if_neg hq] at hp2
        exact hs.captain q p' hp2
    · intro q
      show (dictLookup (dictErase s.db_parties pid) q).map Party.members =
        (dictLookup (dictErase s.active_parties pid) q).map Party.members
      rw [optMembers_erase, optMembers_erase]
      by_cases hq : q = pid
      · rw [if_pos hq, if_pos hq]
      · rw [if_neg hq, if_neg hq]
        exact hs.dbsync q
  · rw [if_neg hre]
    set M := if removed.role = "CAPTAIN" then promoteHead rest else rest with hM
    have hm_ids : M.map (fun x => x.account_id) = rest.map (fun x => x.account_id) := by
      rw [hM]
      by_cases hr : removed.role = "CAPTAIN"
      · rw [if_pos hr, promoteHead_map_id]
      · rw [if_neg hr]
    have hm_cnt : captainCount M = 1 := by
      rw [hM]
      by_cases hr : removed.role = "CAPTAIN"
      · rw [if_pos hr]
        apply captainCount_promoteHead rest hre
        rw [hcons, if_pos hr] at hcnt
        rw [hcrest]
        omega
      · rw [if_neg hr]
        rw [hcons, if_neg hr] at hcnt
        omega
    refine ⟨?_, ?_, ?_, ?_, ?_⟩
    · intro a q ha
      have ha' : a ∈ membersOfMap (dictInsert s.active_parties pid (setMembers party M now)) q :=
        ha
      rw [membersOfMap_insert] at ha'
      by_cases hq : q = pid
      · rw [if_pos hq] at ha'
        have ha2 : a ∈ rest.map (fun x => x.account_id) := by
          rw [← hm_ids]
          exact ha'
        have haid : a ≠ aid := fun hh => hnotin_rest (hh ▸ ha2)
        show dictLookup (dictErase s.user_parties aid) a = some q
        rw [dictLookup_erase, if_neg haid, hq]
        exact hs.uniq a pid (hsub a ha2)
      · rw [if_neg hq] at ha'
        have huq := hs.uniq a q ha'
        show dictLookup (dictErase s.user_parties aid) a = some q
        by_cases haid : a = aid
        · subst haid
          rw [huq] at hup_aid
          exact absurd (Option.some.inj hup_aid) hq
        · rw [dictLookup_erase, if_neg haid]
          exact huq
    · intro q hsome
      show membersOfMap (dictInsert s.active_parties pid (setMembers party M now)) q ≠ []
      rw [membersOfMap_insert]
      by_cases hq : q = pid
      · rw [if_pos hq]
        show M.map (fun x => x.account_id) ≠ []
        rw [hm_ids]
        intro hnil
        exact hre (List.map_eq_nil_iff.mp hnil)
      · rw [if_neg hq]
        apply hs.mnonempty
        have heq : dictLookup (dictInsert s.active_parties pid (setMembers party M now)) q =
            dictLookup s.active_parties q := by
          rw [dictLookup_insert, if_neg hq]
        have hsome' :
            (dictLookup (dictInsert s.active_parties pid (setMembers party M now)) q).isSome
              = true := hsome
        rw [heq] at hsome'
        exact hsome'
    · intro q
      show (membersOfMap (dictInsert s.active_parties pid (setMembers party M now)) q).Nodup
      rw [membersOfMap_insert]
      by_cases hq : q = pid
      · rw [if_pos hq]
        show (M.map (fun x => x.account_id)).Nodup
        rw [hm_ids]
        exact hnodup_rest
      · rw [if_neg hq]
        exact hs.mnodup q
    · intro q p' hp'
      have hp2 : dictLookup (dictInsert s.active_parties pid (setMembers party M now)) q =
          some p' := hp'
      by_cases hq : q = pid
      · rw [hq] at hp2
        rw [dictLookup_insert, if_pos rfl] at hp2
        injection hp2 with hp2
        subst hp2
        exact hm_cnt
      · rw [dictLookup_insert, if_neg hq] at hp2
        exact hs.captain q p' hp2
    · intro q
      show (dictLookup (dictInsert s.db_parties pid (setMembers party M now)) q).map
          Party.members =
        (dictLookup (dictInsert s.active_parties pid (setMembers party M now)) q).map
          Party.members
      rw [optMembers_insert, optMembers_insert]
      by_cases hq : q = pid
      · rw [if_pos hq, if_pos hq]
      · rw [if_neg hq, if_neg hq]
        exact hs.dbsync q

theorem PInv_leave (s : PartyState) (pid aid : String) (now : Nat) (hs : PInv s) :
    PInv (leave_party s pid aid now).2 := by
  unfold leave_party
  cases h : dictLookup s.active_parties pid with
  | none => exact hs
  | some party =>
    dsimp only
    cases hpop : popFirst party.members aid with
    | none => exact hs
    | some pr =>
      obtain ⟨removed, rest⟩ := pr
      exact PInv_leaveUpdate s party pid aid removed rest now hs h hpop

/-! ## C9: a failed chained join is masked as success -/

theorem dictLookup_mapval {α β : Type} (m : List (String × α)) (f : α → β) (k : String) :
    dictLookup (m.map (fun e => (e.1, f e.2))) k = (dictLookup m k).map f := by
  induction m with
  | nil => rfl
  | cons e rest ih =>
    obtain ⟨a, b⟩ := e
    by_cases h : a = k
    · simp [dictLookup, h]
    · simp [dictLookup, h, ih]

/-- `PInv` survives replacing a resident party by one with the same member
ids and captain count (and updating the store copy alongside), whatever
happens to the invitation index. -/
theorem PInv_insert_preserved (s : PartyState) (pid : String) (party party' : Party)
    (pi : List (String × List Invitation))
    (hp : dictLookup s.active_parties pid = some party)
    (hids : party'.members.map (fun x => x.account_id) =
      party.members.map (fun x => x.account_id))
    (hcap : captainCount party'.members = captainCount party.members)
    (hs : PInv s) :
    PInv { s with active_parties := dictInsert s.active_parties pid party',
                  party_invitations := pi,
                  db_parties := dictInsert s.db_parties pid party' } := by
  refine PInv_transfer hs ?_ rfl ?_ ?_
  · intro q
    show membersOfMap (dictInsert s.active_parties pid party') q = membersOf s q
    rw [membersOfMap_insert]
    by_cases hq : q = pid
    · rw [if_pos hq, hids, hq]
      exact (membersOfMap_eq_of_lookup hp).symm
    · rw [if_neg hq]
      rfl
  · intro q p' hp'
    have hp2 : dictLookup (dictInsert s.active_parties pid party') q = some p' := hp'
    rw [dictLookup_insert] at hp2
    by_cases hq : q = pid
    · rw [if_pos hq] at hp2
      injection hp2 with hp2
      subst hp2
      exact ⟨party, by rw [hq]; exact hp, hcap⟩
    · rw [if_neg hq] at hp2
      exact ⟨p', hp2, rfl⟩
  · intro q
    show (dictLookup (dictInsert s.db_parties pid party') q).map Party.members =
      (dictLookup (dictInsert s.active_parties pid party') q).map Party.members
    rw [optMembers_insert, optMembers_insert]
    by_cases hq : q = pid
    · rw [if_pos hq, if_pos hq]
    · rw [if_neg hq, if_neg hq]
      exact hs.dbsync q

theorem PInv_sendInv (s : PartyState) (pid from_id to_id inv_id : String) (now : Nat)
    (hs : PInv s) : PInv (send_invitation s pid from_id to_id inv_id now).2 := by
  unfold send_invitation
  cases h : dictLookup s.active_parties pid with
  | none => exact hs
  | some party =>
    dsimp only
    by_cases h1 : (party.members.any fun m => m.account_id == from_id) = true
    · rw [if_neg (not_not_intro h1)]
      by_cases h2 : (dictLookup s.user_parties to_id).isSome = true
      · rw [if_pos h2]
        exact hs
      · rw [if_neg h2]
        refine PInv_insert_preserved s pid party _ _ h ?_ ?_ hs
        · rfl
        · rfl
    · rw [if_pos h1]
      exact hs

theorem PInv_ready (s : PartyState) (pid aid : String) (r : Bool) (now : Nat)
    (hs : PInv s) : PInv (update_member_ready_state s pid aid r now).2 := by
  unfold update_member_ready_state
  cases h : dictLookup s.active_parties pid with
  | none => exact hs
  | some party =>
    dsimp only
    by_cases hf : (setReady party.members aid r).2 = true
    · rw [if_neg (not_not_intro hf)]
      refine PInv_insert_preserved s pid party _ _ h ?_ ?_ hs
      · exact setReady_map_id party.members aid r
      · exact setReady_captainCount party.members aid r
    · rw [if_pos hf]
      exact hs

theorem sweep_active (s : PartyState) (now : Nat) :
    (cleanup_expired_invitations s now).active_parties =
      s.active_parties.map (fun e => (e.1, sweepParty now e.2)) := rfl

theorem PInv_sweep (s : PartyState) (now : Nat) (hs : PInv s) :
    PInv (cleanup_expired_invitations s now) := by
  refine PInv_transfer hs ?_ rfl ?_ ?_
  · intro q
    show membersOfMap (cleanup_expired_invitations s now).active_parties q = membersOf s q
    rw [sweep_active]
    unfold membersOf membersOfMap
    rw [dictLookup_mapval s.active_parties (sweepParty now) q]
    cases dictLookup s.active_parties q <;> rfl
  · intro q p' hp'
    have hp2 : dictLookup (cleanup_expired_invitations s now).active_parties q = some p' :=
      hp'
    rw [sweep_active, dictLookup_mapval s.active_parties (sweepParty now) q] at hp2
    cases hl : dictLookup s.active_parties q with
    | none =>
      rw [hl] at hp2
      exact absurd hp2 (by simp)
    | some p =>
      rw [hl] at hp2
      injection hp2 with hp2
      refine ⟨p, rfl, ?_⟩
      rw [← hp2]
      rfl
  · intro q
    show (dictLookup s.db_parties q).map Party.members =
      (dictLookup (cleanup_expired_invitations s now).active_parties q).map Party.members
    rw [sweep_active, dictLookup_mapval s.active_parties (sweepParty now) q]
    cases hl : dictLookup s.active_parties q with
    | none =>
      rw [dbsync_none (hs.dbsync q) hl]
      rfl
    | some p =>
      have hd := hs.dbsync q
      rw [hl] at hd
      rw [hd]
      rfl

theorem PInv_markResponded (s : PartyState) (pid inv_id aid : String) (inv' : Invitation)
    (hs : PInv s) : PInv (markResponded s pid inv_id aid inv') := by
  unfold markResponded
  cases hp : dictLookup s.active_parties pid with
  | none =>
    exact PInv_transfer hs (fun q => rfl) rfl (fun q p' hp' => ⟨p', hp', rfl⟩) hs.dbsync
  | some p =>
    refine PInv_transfer hs ?_ rfl ?_ ?_
    · intro q
      show membersOfMap (dictInsert s.active_parties pid
        (setInvitations p (updateInvStatus p.invitations inv_id aid inv'))) q = membersOf s q
      rw [membersOfMap_insert]
      by_cases hq : q = pid
      · rw [if_pos hq, hq]
        exact (membersOfMap_eq_of_lookup hp).symm
      · rw [if_neg hq]
        rfl
    · intro q p' hp2
      have hp2' : dictLookup (dictInsert s.active_parties pid
          (setInvitations p (updateInvStatus p.invitations inv_id aid inv'))) q = some p' :=
        hp2
      rw [dictLookup_insert] at hp2'
      by_cases hq : q = pid
      · rw [if_pos hq] at hp2'
        injection hp2' with hp2'
        refine ⟨p, by rw [hq]; exact hp, ?_⟩
        rw [← hp2']
        rfl
      · rw [if_neg hq] at hp2'
        exact ⟨p', hp2', rfl⟩
    · intro q
      show (dictLookup s.db_parties q).map Party.members =
        (dictLookup (dictInsert s.active_parties pid
          (setInvitations p (updateInvStatus p.invitations inv_id aid inv'))) q).map
          Party.members
      rw [optMembers_insert]
      by_cases hq : q = pid
      · rw [if_pos hq, hq]
        have hd := hs.dbsync pid
        rw [hp] at hd
        rw [hd]
        rfl
      · rw [if_neg hq]
        exact hs.dbsync q

theorem PInv_finishSave (s3 : PartyState) (pid inv_id : String) (pidOpt : Option String)
    (respU : String) (hs : PInv s3) : PInv (finishSave s3 pid inv_id pidOpt respU).2 := by
  unfold finishSave
  cases h : dictLookup s3.active_parties pid with
  | none => exact hs
  | some p =>
    refine PInv_transfer hs (fun q => rfl) rfl (fun q p' hp' => ⟨p', hp', rfl⟩) ?_
    intro q
    show (dictLookup (dictInsert s3.db_parties pid p) q).map Party.members =
      (dictLookup s3.active_parties q).map Party.members
    rw [optMembers_insert]
    by_cases hq : q = pid
    · rw [if_pos hq, hq, h]
      rfl
    · rw [if_neg hq]
      exact hs.dbsync q

theorem PInv_finishRespond (s : PartyState) (pid inv_id aid : String)
    (pidOpt : Option String) (respU : String) (hs : PInv s) :
    PInv (finishRespond s pid inv_id aid pidOpt respU).2 := by
  unfold finishRespond
  apply PInv_finishSave
  exact PInv_transfer hs (fun q => rfl) rfl (fun q p' hp' => ⟨p', hp', rfl⟩) hs.dbsync

theorem PInv_respond (s : PartyState) (inv_id aid resp : String) (now : Nat)
    (hs : PInv s) : PInv (respond_to_invitation s inv_id aid resp now).2 := by
  unfold respond_to_invitation
  cases hf : findInvitation s.active_parties inv_id aid with
  | none => exact hs
  | some pr =>
    obtain ⟨pid, inv⟩ := pr
    dsimp only
    by_cases hexp : now > inv.expires_at
    · rw [if_pos hexp]
      exact hs
    · rw [if_neg hexp]
      have h1 : PInv (markResponded s pid inv_id aid (invUpd inv (strUpper resp) now)) :=
        PInv_markResponded s pid inv_id aid _ hs
      by_cases hacc : strUpper resp = "ACCEPT"
      · rw [if_pos hacc]
        have h2 : PInv (join_party
            (markResponded s pid inv_id aid (invUpd inv (strUpper resp) now))
            pid aid none now).2 :=
          PInv_join _ pid aid none now h1
        by_cases herr : resHasErrorKey (join_party
            (markResponded s pid inv_id aid (invUpd inv (strUpper resp) now))
            pid aid none now).1 = true
        · rw [if_pos herr]
          exact h2
        · rw [if_neg herr]
          exact PInv_finishRespond _ pid inv_id aid (some pid) (strUpper resp) h2
      · rw [if_neg hacc]
        exact PInv_finishRespond _ pid inv_id aid none (strUpper resp) h1

theorem PInv_applyOp (s : PartyState) (op : POp) (hs : PInv s) : PInv (s.applyOp op) := by
  cases op with
  | create a c p n => exact PInv_create s a c p n hs
  | get p => exact PInv_get s p hs
  | join p a pf n => exact PInv_join s p a pf n hs
  | leave p a n => exact PInv_leave s p a n hs
  | sendInv p f t i n => exact PInv_sendInv s p f t i n hs
  | respond i a r n => exact PInv_respond s i a r n hs
  | ready p a r n => exact PInv_ready s p a r n hs
  | sweep n => exact PInv_sweep s n hs

/-- The invariant holds in every reachable registry state. -/
theorem PInv_reachable (s : PartyState) (h : PReachable s) : PInv s := by
  induction h with
  | init => exact PInv_initial
  | step s op hs ih => exact PInv_applyOp s op ih

/-- In an invariant state the persisted membership of every party id agrees
with the in-memory one. -/
theorem dbMembersOf_eq (s : PartyState) (hs : PInv s) (pid : String) :
    dbMembersOf s pid = membersOf s pid := by
  have hd := hs.dbsync pid
  cases hl : dictLookup s.active_parties pid with
  | none =>
    show membersOfMap s.db_parties pid = membersOfMap s.active_parties pid
    unfold membersOfMap
    rw [hl, dbsync_none hd hl]
  | some p =>
    rw [hl] at hd
    cases hdb : dictLookup s.db_parties pid with
    | none =>
      rw [hdb] at hd
      exact absurd hd (by simp)
    | some q =>
      rw [hdb] at hd
      have hm : q.members = p.members := by simpa using hd
      show membersOfMap s.db_parties pid = membersOfMap s.active_parties pid
      unfold membersOfMap
      rw [hl, hdb]
      dsimp only
      rw [hm]

/-- C9 counterexample: accepting an invitation into a full party (max_size 1)
does not return the join error: the response reports success carrying the
party id, and the invitation IS removed from the recipient index, while the
membership stays unchanged. -/
theorem c9_counterexample :
    (respond_to_invitation psTinyInvited "i1" "B" "ACCEPT" 0).1 =
      .ok ⟨"i1", "ACCEPT", some "p1"⟩ ∧
    dictLookup (respond_to_invitation psTinyInvited "i1" "B" "ACCEPT" 0).2.party_invitations
      "B" = some [] ∧
    membersOf (respond_to_invitation psTinyInvited "i1" "B" "ACCEPT" 0).2 "p1" = ["A"] := by
  refine ⟨?_, ?_, ?_⟩ <;> decide

theorem finishRespond_result (s : PartyState) (pid i aid : String) (po : Option String)
    (ru : String) (p : Party) (hp : dictLookup s.active_parties pid = some p) :
    (finishRespond s pid i aid po ru).1 = .ok ⟨i, ru, po⟩ := by
  unfold finishRespond
  exact finishSave_result _ pid i po ru p hp

/-- C9 amended: when the chained join of an ACCEPT fails (here because the
party is full), the response does not surface the join error: it returns an ok
payload carrying the party id; the invitation's status has been overwritten to
ACCEPT and the invitation stays in the party's invitation list; the invitation
IS removed from the recipient index; the party's membership is unchanged. -/
theorem respond_masks_join_failure (s : PartyState) (inv_id aid resp : String) (now : Nat)
    (pid : String) (inv : Invitation) (p : Party)
    (hkeys : (s.active_parties.map Prod.fst).Nodup)
    (hf : findInvitation s.active_parties inv_id aid = some (pid, inv))
    (he : ¬ now > inv.expires_at)
    (hacc : strUpper resp = "ACCEPT")
    (hp : dictLookup s.active_parties pid = some p)
    (hfull : p.members.length ≥ p.config.max_size) :
    (respond_to_invitation s inv_id aid resp now).1 = .ok ⟨inv_id, "ACCEPT", some pid⟩ ∧
    (∃ p', dictLookup (respond_to_invitation s inv_id aid resp now).2.active_parties pid
        = some p' ∧ p'.members = p.members ∧
        ∃ x ∈ p'.invitations, x.id = inv_id ∧ x.status = "ACCEPT") ∧
    (∀ x ∈ (dictLookup (respond_to_invitation s inv_id aid resp now).2.party_invitations
        aid).getD [], x.id ≠ inv_id) := by
  obtain ⟨p0, hp0, hfi⟩ := findInvitation_lookup hkeys hf
  have hpp : p0 = p := by rw [hp0] at hp; exact Option.some.inj hp
  subst hpp
  unfold respond_to_invitation
  simp only [hf]
  rw [if_neg he, if_pos hacc]
  have hp1 := markResponded_lookup s pid inv_id aid (invUpd inv (strUpper resp) now) p0 hp0
  obtain ⟨m, c, hjoin⟩ := join_party_full _ pid aid none now _ hp1 hfull
  rw [hjoin]
  rw [resHasErrorKey_false]
  simp only [Bool.false_eq_true, if_false]
  refine ⟨?_, ?_, ?_⟩
  · rw [← hacc]
    exact finishRespond_result _ pid inv_id aid (some pid) (strUpper resp) _ hp1
  · rw [finishRespond_active]
    exact ⟨_, hp1, rfl, invUpd inv (strUpper resp) now, mem_updateInvStatus _ hfi,
      (findInvInList_props hfi).1, hacc⟩
  · exact finishRespond_recipient _ pid inv_id aid (some pid) (strUpper resp)

/-- Witness for C9 amended at the full-party scenario. -/
theorem respond_masks_join_failure_witness :
    (dictLookup psTinyInvited.active_parties "p1" = some psTinyParty ∧
     psTinyParty.members.length ≥ psTinyParty.config.max_size) ∧
    (respond_to_invitation psTinyInvited "i1" "B" "ACCEPT" 0).1 =
      .ok ⟨"i1", "ACCEPT", some "p1"⟩ :=
  ⟨⟨by decide, by decide⟩,
   (respond_masks_join_failure psTinyInvited "i1" "B" "ACCEPT" 0 "p1" psInvitedInv psTinyParty
      (by decide) (by decide) (by decide) (by decide) (by decide) (by decide)).1⟩

/-- Witness for C4 amended at the decline scenario. -/
theorem respond_cleans_recipient_index_only_witness :
    (findInvitation psInvited.active_parties "i1" "B" = some ("p1", psInvitedInv) ∧
     ¬ (0 : Nat) > psInvitedInv.expires_at) ∧
    (∀ x ∈ (dictLookup (respond_to_invitation psInvited "i1" "B" "DECLINE" 0).2.party_invitations
        "B").getD [], x.id ≠ "i1") ∧
    (∃ p', dictLookup (respond_to_invitation psInvited "i1" "B" "DECLINE" 0).2.active_parties
        "p1" = some p' ∧ ∃ x ∈ p'.invitations, x.id = "i1" ∧ x.status = strUpper "DECLINE") :=
  ⟨⟨by decide, by decide⟩,
   respond_cleans_recipient_index_only psInvited "i1" "B" "DECLINE" 0 "p1" psInvitedInv
     (by decide) (by decide) (by decide)⟩

/-- C1: after any sequence of registry operations, an account is a member of
at most one party — if it appears in the member list of the party stored
under `p1` and of the party stored under `p2` (in memory or in the
persistence store), then `p1 = p2`. -/
theorem account_in_at_most_one_party (s : PartyState) (h : PReachable s)
    (a p1 p2 : String)
    (h1 : a ∈ membersOf s p1 ∨ a ∈ dbMembersOf s p1)
    (h2 : a ∈ membersOf s p2 ∨ a ∈ dbMembersOf s p2) : p1 = p2 := by
  have hs := PInv_reachable s h
  have hm1 : a ∈ membersOf s p1 := by
    rcases h1 with h1 | h1
    · exact h1
    · rw [dbMembersOf_eq s hs p1] at h1
      exact h1
  have hm2 : a ∈ membersOf s p2 := by
    rcases h2 with h2 | h2
    · exact h2
    · rw [dbMembersOf_eq s hs p2] at h2
      exact h2
  have u1 := hs.uniq a p1 hm1
  have u2 := hs.uniq a p2 hm2
  rw [u1] at u2
  exact Option.some.inj u2

/-- Witness for C1 on a trace with two parties and a joined member. -/
theorem account_in_at_most_one_party_witness :
    ("A" ∈ membersOf psTrace "p1" ∨ "A" ∈ dbMembersOf psTrace "p1") ∧
    ("p1" : String) = "p1" :=
  ⟨Or.inl (by decide),
   account_in_at_most_one_party psTrace
     (PReachable.step _ _ (PReachable.step _ _ (PReachable.step _ _ PReachable.init)))
     "A" "p1" "p1" (Or.inl (by decide)) (Or.inr (by decide))⟩

/-- C5: in every reachable registry state, each resident party has a
non-empty member list with exactly one CAPTAIN; and when the captain leaves
a party that keeps members, `leave_party` stores the party with the first
remaining member promoted (`promoteHead`), still with exactly one
CAPTAIN. -/
theorem unique_captain_and_promotion (s : PartyState) (h : PReachable s) :
    (∀ pid p, dictLookup s.active_parties pid = some p →
      p.members ≠ [] ∧ captainCount p.members = 1) ∧
    (∀ pid aid now party removed rest,
      dictLookup s.active_parties pid = some party →
      popFirst party.members aid = some (removed, rest) →
      removed.role = "CAPTAIN" → rest ≠ [] →
      ∃ p', dictLookup (leave_party s pid aid now).2.active_parties pid = some p' ∧
        p'.members = promoteHead rest ∧ captainCount p'.members = 1) := by
  have hs := PInv_reachable s h
  constructor
  · intro pid p hp
    refine ⟨?_, hs.captain pid p hp⟩
    intro hnil
    have hne := hs.mnonempty pid (by rw [hp]; rfl)
    rw [show membersOf s pid = membersOfMap s.active_parties pid from rfl,
      membersOfMap_eq_of_lookup hp, hnil] at hne
    exact hne rfl
  · intro pid aid now party removed rest hp hpop hrole hne
    have hstep : (leave_party s pid aid now).2 =
        (leaveUpdate s party pid aid removed rest now).2 := by
      unfold leave_party
      rw [hp]
      dsimp only
      rw [hpop]
    have hlu : (leaveUpdate s party pid aid removed rest now).2.active_parties =
        dictInsert s.active_parties pid (setMembers party (promoteHead rest) now) := by
      unfold leaveUpdate
      rw [if_neg hne, if_pos hrole]
    have hlook : dictLookup (leave_party s pid aid now).2.active_parties pid =
        some (setMembers party (promoteHead rest) now) := by
      rw [hstep, hlu, dictLookup_insert, if_pos rfl]
    refine ⟨setMembers party (promoteHead rest) now, hlook, rfl, ?_⟩
    have hpl := PInv_leave s pid aid now hs
    exact hpl.captain pid _ hlook

/-- Witness for C5 on the two-member party: the captain leaves and the
remaining member is promoted. -/
theorem unique_captain_and_promotion_witness :
    (dictLookup psTwo.active_parties "p1" = some psTwoParty ∧
     popFirst psTwoParty.members "A" = some (mkCaptain "A" 0, [mkMember "B" 1 none]) ∧
     (mkCaptain "A" 0).role = "CAPTAIN" ∧ [mkMember "B" 1 none] ≠ []) ∧
    (∃ p', dictLookup (leave_party psTwo "p1" "A" 2).2.active_parties "p1" = some p' ∧
      p'.members = promoteHead [mkMember "B" 1 none] ∧ captainCount p'.members = 1) :=
  ⟨⟨by decide, by decide, by decide, by decide⟩,
   (unique_captain_and_promotion psTwo
     (PReachable.step _ _ (PReachable.step _ _ PReachable.init))).2
     "p1" "A" 2 psTwoParty (mkCaptain "A" 0) [mkMember "B" 1 none]
     (by decide) (by decide) (by decide) (by decide)⟩

end Fear
